import Mathlib

/-!
Verification of the transcript-fetching core of `mcp-youtube-transcriber`.

The Python sources (`utils.py`, `throttle.py`, `policy.py`, `cache.py`,
`server.py`) are shallowly embedded below.  Python strings are modelled as
`List Char`, Python floats (monotonic clock values, delays) as `ℚ`, Python
ints as `Int`/`ℕ`.  External collaborators (the `json` module, `hashlib`,
the actual network fetch, the event-loop clock and `asyncio.sleep`) are
modelled as explicit parameters or oracles, as noted at each definition.
-/

namespace MCPYT

/-! ## Python string primitives (ASCII model)

`lowerChar` models `str.lower` on the ASCII range (every string constant the
program compares against is ASCII).  `pyStrip` models `str.strip()` for the
ASCII whitespace characters. -/

def lowerChar (c : Char) : Char :=
  if 'A' ≤ c ∧ c ≤ 'Z' then Char.ofNat (c.toNat + 32) else c

def pyLower (s : List Char) : List Char := s.map lowerChar

def isPyWS (c : Char) : Bool :=
  c == ' ' || c == '\t' || c == '\n' || c == '\r' || c == '\x0b' || c == '\x0c'

def pyStrip (s : List Char) : List Char :=
  ((s.dropWhile isPyWS).reverse.dropWhile isPyWS).reverse

/-- Python `needle in hay` (substring containment). -/
def hasSub (hay needle : List Char) : Bool :=
  needle.isPrefixOf hay ||
    match hay with
    | [] => false
    | _ :: t => hasSub t needle

/-- Python `s.rsplit(c, 1)[-1]`: the part after the last occurrence of `c`
(the whole string when `c` is absent). -/
def afterLastChar (c : Char) (s : List Char) : List Char :=
  (s.reverse.takeWhile (fun x => x ≠ c)).reverse

/-- Python `s.split(c, 1)[0]`: the part before the first occurrence of `c`. -/
def takeUntilChar (c : Char) (s : List Char) : List Char :=
  s.takeWhile (fun x => x ≠ c)

/-- Python `s.split(c, 1)[-1]`: the part after the first occurrence of `c`
(the whole string when `c` is absent). -/
def afterFirstChar (c : Char) (s : List Char) : List Char :=
  match s.dropWhile (fun x => x ≠ c) with
  | [] => s
  | _ :: t => t

/-- Helper for `afterFirstSub`: the part after the first occurrence of
`needle`, or `none` when `needle` does not occur. -/
def afterFirstSubAux (needle : List Char) : List Char → Option (List Char)
  | [] => if needle.isEmpty then some [] else none
  | c :: t =>
    if needle.isPrefixOf (c :: t) then some ((c :: t).drop needle.length)
    else afterFirstSubAux needle t

/-- Python `s.split(needle, 1)[-1]` for a nonempty separator string. -/
def afterFirstSub (needle s : List Char) : List Char :=
  (afterFirstSubAux needle s).getD s

/-- Python `s.split(c)` (full split on a single character). -/
def splitOnChar (c : Char) : List Char → List (List Char)
  | [] => [[]]
  | x :: t =>
    if x = c then [] :: splitOnChar c t
    else
      match splitOnChar c t with
      | [] => [[x]]
      | h :: r => (x :: h) :: r

/-- Python `s.rstrip(c)` for a single strip character. -/
def rstripChar (c : Char) (s : List Char) : List Char :=
  (s.reverse.dropWhile (fun x => x = c)).reverse

/-! ## `utils.extract_video_id` -/

/-- The `for part in query.split("&")` loop of `extract_video_id`: the value
after the first `=` of the first `&`-part starting with `v=`. -/
def findVParam : List (List Char) → Option (List Char)
  | [] => none
  | p :: rest =>
    if ['v', '='].isPrefixOf p then some (afterFirstChar '=' p)
    else findVParam rest

/-- The `watch?v=` extraction applied to the whole (stripped) input:
`query = url_or_id.split("?", 1)[-1]`, then the loop over `query.split("&")`. -/
def watchVParam (s : List Char) : Option (List Char) :=
  findVParam (splitOnChar '&' (afterFirstChar '?' s))

/-- The body of the `if "youtube.com" in lower or "youtu.be" in lower` block
of `extract_video_id`; `none` means the block fell through without
returning. -/
def youtubeBranch (s : List Char) : Option (List Char) :=
  let lower := pyLower s
  if hasSub lower "youtube.com".data || hasSub lower "youtu.be".data then
    if hasSub lower "youtu.be/".data then
      some (takeUntilChar '?' (afterLastChar '/' s))
    else if hasSub lower "/shorts/".data then
      some (takeUntilChar '?' (afterFirstSub "/shorts/".data s))
    else if hasSub lower "watch?".data && hasSub lower "v=".data then
      watchVParam s
    else none
  else none

/-- `utils.extract_video_id`, embedded from the source. -/
def extract_video_id (input : List Char) : List Char :=
  let s := pyStrip input
  if s.length == 11 && !hasSub s "://".data && !hasSub s ['/'] then s
  else
    match youtubeBranch s with
    | some r => r
    | none =>
      if hasSub s ['/'] then
        let candidate := afterLastChar '/' (rstripChar '/' s)
        if 6 ≤ candidate.length then candidate else s
      else s

/-! ## `policy.py` -/

structure FetchClassification where
  fetch_method : List Char
  libraries_detected : List (List Char)
  auth_required : Bool

/-- `FetchPolicy` dataclass.  Timing fields are rationals (Python floats in
the source hold only small decimal constants); `max_retries` is a natural
number (all source profiles use nonnegative ints). -/
structure FetchPolicy where
  fetch_method : List Char
  auth_required : Bool
  ttl_seconds : Int
  min_interval_seconds : ℚ
  jitter_seconds : ℚ
  max_retries : ℕ
  backoff_base_seconds : ℚ
  backoff_max_seconds : ℚ
  cooldown_seconds : ℚ
  safe_max_per_hour : ℕ
deriving DecidableEq

/-- `policy.policy_for`. -/
def policy_for (c : FetchClassification) : FetchPolicy :=
  if c.fetch_method = "YT_DATA_API".data then
    { fetch_method := c.fetch_method, auth_required := true
      ttl_seconds := 14 * 24 * 60 * 60
      min_interval_seconds := 1, jitter_seconds := 1/2
      max_retries := 2, backoff_base_seconds := 2, backoff_max_seconds := 30
      cooldown_seconds := 5 * 60, safe_max_per_hour := 50 }
  else if c.fetch_method = "YT_TRANSCRIPT_API".data then
    { fetch_method := c.fetch_method, auth_required := false
      ttl_seconds := 60 * 24 * 60 * 60
      min_interval_seconds := 8, jitter_seconds := 2
      max_retries := 3, backoff_base_seconds := 2, backoff_max_seconds := 60
      cooldown_seconds := 15 * 60, safe_max_per_hour := 5 }
  else
    { fetch_method := c.fetch_method, auth_required := false
      ttl_seconds := 1000000000
      min_interval_seconds := 12, jitter_seconds := 3
      max_retries := 1, backoff_base_seconds := 2, backoff_max_seconds := 20
      cooldown_seconds := 30 * 60, safe_max_per_hour := 3 }

/-! ## `throttle.RequestThrottler`

The mutable fields of the throttler.  Clock values come from
`time.monotonic()` and are threaded explicitly as `ℚ` arguments. -/

structure ThrottleState where
  last_request_at : ℚ
  cooldown_until : ℚ
  consecutive_429 : ℕ
deriving DecidableEq

/-- The `__init__` field values (`0.0`, `0.0`, `0`). -/
def throttlerInit : ThrottleState := ⟨0, 0, 0⟩

/-- `RequestThrottler.register_success`. -/
def register_success (s : ThrottleState) : ThrottleState :=
  { s with consecutive_429 := 0 }

/-- `RequestThrottler.register_rate_limit`; `now` is the `time.monotonic()`
value read inside the call. -/
def register_rate_limit (p : FetchPolicy) (now : ℚ) (s : ThrottleState) :
    ThrottleState :=
  let n := s.consecutive_429 + 1
  { s with
    consecutive_429 := n
    cooldown_until := if 2 ≤ n then now + p.cooldown_seconds else s.cooldown_until }

/-- The observables of one `wait_for_slot` call: its three `time.monotonic()`
reads (`now1` before the cooldown check, `now2` after the cooldown sleep,
`now3` at the final stamp) and the `random.uniform(0, jitter)` sample. -/
structure WaitSamples where
  now1 : ℚ
  now2 : ℚ
  now3 : ℚ
  jitter : ℚ
deriving DecidableEq

/-- `RequestThrottler.wait_for_slot`: its only state mutation is stamping
`last_request_at` with the final clock read (the grant time); the sleeps are
real-time effects captured by `WaitConsistent`. -/
def wait_for_slot (s : ThrottleState) (w : WaitSamples) : ThrottleState :=
  { s with last_request_at := w.now3 }

/-- The semantics of the clock and of `asyncio.sleep` inside one
`wait_for_slot` call: the clock is monotone across the call, a sleep of `d`
seconds wakes no earlier than `d` seconds later, and the jitter sample lies
in `[0, jitter_seconds]`.  The two `if`s mirror the two conditional sleeps of
the source. -/
def WaitConsistent (p : FetchPolicy) (s : ThrottleState) (w : WaitSamples) :
    Prop :=
  (if w.now1 < s.cooldown_until then s.cooldown_until ≤ w.now2
   else w.now1 ≤ w.now2) ∧
  0 ≤ w.jitter ∧ w.jitter ≤ p.jitter_seconds ∧
  (if w.now2 - s.last_request_at < p.min_interval_seconds + w.jitter
   then w.now2 + (p.min_interval_seconds + w.jitter - (w.now2 - s.last_request_at)) ≤ w.now3
   else w.now2 ≤ w.now3)

/-! ## `throttle.is_rate_limit_error` and `throttle.parse_retry_after_seconds` -/

/-- A Python exception as observed by `is_rate_limit_error` /
`parse_retry_after_seconds`: its optional integer `status_code` / `status`
attributes and `str(exc)`. -/
structure PyExc where
  status_code : Option Int
  status : Option Int
  msg : List Char
deriving DecidableEq

/-- `throttle.is_rate_limit_error`. -/
def is_rate_limit_error (e : PyExc) : Bool :=
  if e.status_code == some 429 || e.status == some 429 then true
  else
    let m := pyLower e.msg
    if hasSub m "429".data && (hasSub m "too many requests".data || hasSub m "http".data)
    then true
    else hasSub m "rate limit".data

/-- Case-insensitive single-character match (the effect of `re.IGNORECASE`
on a literal character of the pattern). -/
def charCI (a b : Char) : Bool := lowerChar a == lowerChar b

/-- Match a literal pattern fragment case-insensitively at the head of the
input, returning the rest of the input. -/
def matchLitCI : List Char → List Char → Option (List Char)
  | [], rest => some rest
  | _ :: _, [] => none
  | l :: ls, c :: cs => if charCI l c then matchLitCI ls cs else none

def isSChar (c : Char) : Bool := c == 's' || c == 'S'

def isDChar (c : Char) : Bool := c == 'd' || c == 'D'

/-- One anchored match of the compiled pattern of
`parse_retry_after_seconds`.  The source passes the *raw* string
`r"retry-after[:=]\\s*(\\d+)"` to `re.search`, so the regex engine receives
the pattern text `retry-after[:=]\\s*(\\d+)`, in which `\\` is an escaped
literal backslash: after `retry-after` and `:`/`=` it requires a literal
backslash, then zero or more letters `s` (case-insensitive, greedy — no
backtracking is possible since the following required character is a
backslash, which `s*` never consumes), then a literal backslash, then one or
more letters `d` (case-insensitive).  Group 1 is the final backslash
followed by the `d` run.  Returns group 1 on a match. -/
def matchRetryAfterAt (cs : List Char) : Option (List Char) :=
  match matchLitCI "retry-after".data cs with
  | none => none
  | some r1 =>
    match r1 with
    | [] => none
    | c :: r2 =>
      if c == ':' || c == '=' then
        match r2 with
        | [] => none
        | b1 :: r3 =>
          if b1 = '\\' then
            match r3.dropWhile isSChar with
            | [] => none
            | b2 :: r5 =>
              if b2 = '\\' then
                let ds := r5.takeWhile isDChar
                if ds.isEmpty then none else some ('\\' :: ds)
              else none
          else none
      else none

/-- `re.search` for the pattern above: first match over all start
positions, returning group 1. -/
def reSearchRetryAfter : List Char → Option (List Char)
  | [] => matchRetryAfterAt []
  | c :: cs =>
    match matchRetryAfterAt (c :: cs) with
    | some g => some g
    | none => reSearchRetryAfter cs

/-- Value of a nonempty all-digit string, else `none`. -/
def digitsVal (ds : List Char) : Option Int :=
  if ds ≠ [] ∧ ds.all Char.isDigit then
    some (ds.foldl (fun a c => a * 10 + ((c.toNat : Int) - 48)) 0)
  else none

/-- Python `int(s)` on a string: strips whitespace, accepts an optional
sign followed by digits, raises `ValueError` (here: `none`) otherwise.
(The model omits `_` digit grouping, which no string reaching this call can
contain anyway: every candidate starts with a backslash.) -/
def pyIntOfString (cs : List Char) : Option Int :=
  match pyStrip cs with
  | '+' :: ds => digitsVal ds
  | '-' :: ds => (digitsVal ds).map (fun n => -n)
  | ds => digitsVal ds

/-- `throttle.parse_retry_after_seconds`: `re.search` for the (mis-escaped)
pattern, then `int(match.group(1))` with `ValueError` mapped to `None`. -/
def parse_retry_after_seconds (msg : List Char) : Option Int :=
  match reSearchRetryAfter msg with
  | none => none
  | some g => pyIntOfString g

/-! ## `server.py` response envelopes -/

/-- The `cache` block built by `server._format_cache_meta`. -/
structure CacheMeta where
  hit : Bool
  age_seconds : Option Int
  ttl_seconds : Int
  method : List Char
deriving DecidableEq

/-- The response dictionary produced by `get_transcript`'s error paths and
success path (the optional `segments`/`metadata` keys are not needed by the
claims about error paths). -/
structure Envelope where
  video_id : List Char
  language : List Char
  is_auto_generated : Option Bool
  transcript_text : List Char
  error : Option (List Char)
  cache : CacheMeta
  source : List Char
deriving DecidableEq

/-- `server._format_cache_meta(None)` (the miss/error shape); `FETCH_POLICY`
is passed explicitly. -/
def _format_cache_meta_none (p : FetchPolicy) : CacheMeta :=
  { hit := false, age_seconds := none, ttl_seconds := p.ttl_seconds
    method := p.fetch_method }

/-- `server._format_error_response`. -/
def _format_error_response (p : FetchPolicy) (video_id language err : List Char) :
    Envelope :=
  { video_id := video_id, language := language, is_auto_generated := none
    transcript_text := [], error := some err
    cache := _format_cache_meta_none p, source := "network".data }

/-! ## `server._fetch_transcript_with_policy`

The retry loop.  One call of `_fetch_transcript_once` per iteration; its
outcome (an external-network event) is supplied by an oracle indexed by the
attempt counter, as are the per-iteration clock/jitter observations. -/

/-- Outcome of one `_fetch_transcript_once` call: a normal return (the built
response), a `TranscriptsDisabled` / `NoTranscriptFound` exception, or any
other exception. -/
inductive FetchOutcome where
  | ok (r : Envelope)
  | disabled
  | notFound
  | exc (e : PyExc)
deriving DecidableEq

/-- The external events observed by the retry loop, indexed by the attempt
counter: the fetch outcome, the `wait_for_slot` observations, and the
`time.monotonic()` value read inside `register_rate_limit`. -/
structure LoopEnv where
  outcomes : ℕ → FetchOutcome
  waits : ℕ → WaitSamples
  rlNow : ℕ → ℚ

/-- What one run of the retry loop produced: the returned envelope, the
number of fetch attempts performed, the backoff delays passed to
`asyncio.sleep`, and the final throttler state. -/
structure LoopResult where
  resp : Envelope
  attempts : ℕ
  delays : List ℚ
  throttle : ThrottleState

/-- Python `retry_after or <fallback>`: `None` and `0` are falsy. -/
def pyOrDelay (o : Option Int) (d : ℚ) : ℚ :=
  match o with
  | some n => if n = 0 then d else (n : ℚ)
  | none => d

/-- `server._fetch_transcript_with_policy`, embedded from the source:
`wait_for_slot`, one fetch, then the outcome dispatch — success and
`Disabled`/`NotFound` register success and return; a rate-limit-classified
exception registers a rate limit and either returns the terminal envelope
(when `attempt >= max_retries`) or sleeps the computed delay and retries
with `attempt + 1`; any other exception registers success and returns its
message as the error. -/
def fetchLoop (p : FetchPolicy) (env : LoopEnv) (video_id lang : List Char)
    (attempt : ℕ) (s : ThrottleState) : LoopResult :=
  let s1 := wait_for_slot s (env.waits attempt)
  match env.outcomes attempt with
  | .ok r => ⟨r, 1, [], register_success s1⟩
  | .disabled =>
    ⟨_format_error_response p video_id lang "No transcript available (disabled)".data,
     1, [], register_success s1⟩
  | .notFound =>
    ⟨_format_error_response p video_id lang "No transcript available".data,
     1, [], register_success s1⟩
  | .exc e =>
    if is_rate_limit_error e then
      let s2 := register_rate_limit p (env.rlNow attempt) s1
      let retry_after := parse_retry_after_seconds e.msg
      if h : p.max_retries ≤ attempt then
        ⟨_format_error_response p video_id lang "Rate limited (429): cooldown in effect".data,
         1, [], s2⟩
      else
        let delay :=
          pyOrDelay retry_after
            (min p.backoff_max_seconds (p.backoff_base_seconds * 2 ^ attempt))
        let res := fetchLoop p env video_id lang (attempt + 1) s2
        ⟨res.resp, res.attempts + 1, delay :: res.delays, res.throttle⟩
    else
      ⟨_format_error_response p video_id lang e.msg, 1, [], register_success s1⟩
termination_by p.max_retries - attempt
decreasing_by simp_wf; omega

/-! ## `cache.py`

The sqlite table is modelled as an association list keyed by the primary
key `(video_id, language, kind)`; `INSERT OR REPLACE` replaces the row for
the key.  `json.dumps` / `json.loads` (the stdlib `json` module, an external
collaborator) are threaded as explicit encode/decode parameters;
`hashlib.sha256(...).hexdigest()` is modelled by the concrete digest
stand-in `compute_sha256` (a fixed pure function of the text, which is all
the cache code relies on). -/

structure CacheKey where
  video_id : List Char
  language : List Char
  kind : List Char
deriving DecidableEq

/-- One row of the `transcripts` table. -/
structure CacheRow where
  transcript_text : List Char
  segments_json : Option (List Char)
  metadata_json : Option (List Char)
  is_auto_generated : Option Int
  sha256 : List Char
  fetched_at : ℚ
  fetch_method : List Char

def CacheDB : Type := List (CacheKey × CacheRow)

/-- `SELECT ... WHERE video_id = ? AND language = ? AND kind = ?`. -/
def dbGet (db : CacheDB) (k : CacheKey) : Option CacheRow :=
  match db with
  | [] => none
  | (k', r) :: rest => if k' = k then some r else dbGet rest k

/-- `INSERT OR REPLACE` on the primary key. -/
def dbUpsert (db : CacheDB) (k : CacheKey) (r : CacheRow) : CacheDB :=
  (k, r) :: db.filter (fun kr => decide (kr.1 ≠ k))

def hexDigitChar (n : ℕ) : Char :=
  if n < 10 then Char.ofNat (48 + n) else Char.ofNat (87 + n)

def toHexPad : ℕ → ℕ → List Char
  | 0, _ => []
  | w + 1, v => toHexPad w (v / 16) ++ [hexDigitChar (v % 16)]

/-- `cache.compute_sha256`: models `hashlib.sha256(text.encode()).hexdigest()`
(an external library call) as a concrete pure 64-hex-character digest of the
text — the cache code depends only on the digest being a fixed pure function
of the text. -/
def compute_sha256 (text : List Char) : List Char :=
  toHexPad 64 (text.foldl (fun a c => (a * 16777619 + c.toNat) % 2 ^ 256) 2166136261)

section CacheOps

variable {α β : Type}

/-- The `CacheEntry` dataclass; `segments` and `metadata` are the JSON-able
payloads (type parameters, serialized by the injected `json` functions). -/
structure CacheEntry (α β : Type) where
  transcript_text : List Char
  segments : Option α
  sha256 : List Char
  fetched_at : ℚ
  fetch_method : List Char
  metadata : Option β
  is_auto_generated : Option Bool

/-- Python `json.loads(col) if col else None` on a nullable text column
(`None` and the empty string are falsy). -/
def pyJsonOpt (load : List Char → Option α) (o : Option (List Char)) : Option α :=
  match o with
  | none => none
  | some s => if s = [] then none else load s

/-- `cache.get_cache_entry` (the row-decoding part; `init_cache_db` only
creates the schema). -/
def get_cache_entry (loadSeg : List Char → Option α) (loadMeta : List Char → Option β)
    (db : CacheDB) (video_id language kind : List Char) : Option (CacheEntry α β) :=
  match dbGet db ⟨video_id, language, kind⟩ with
  | none => none
  | some row =>
    some
      { transcript_text := row.transcript_text
        segments := pyJsonOpt loadSeg row.segments_json
        sha256 := row.sha256
        fetched_at := row.fetched_at
        fetch_method := row.fetch_method
        metadata := pyJsonOpt loadMeta row.metadata_json
        is_auto_generated := row.is_auto_generated.map (fun n => decide (n ≠ 0)) }

/-- `cache.set_cache_entry`: recomputes the hash from the text, stamps
`fetched_at` with the current time (`now`), upserts the row, and returns the
entry built from the original arguments. -/
def set_cache_entry (dumpSeg : α → List Char) (dumpMeta : β → List Char)
    (db : CacheDB) (video_id language kind text : List Char)
    (segments : Option α) (metadata : Option β) (is_auto_generated : Option Bool)
    (fetch_method : List Char) (now : ℚ) : CacheDB × CacheEntry α β :=
  let sha := compute_sha256 text
  let row : CacheRow :=
    { transcript_text := text
      segments_json := segments.map dumpSeg
      metadata_json := metadata.map dumpMeta
      is_auto_generated := is_auto_generated.map (fun b => if b then 1 else 0)
      sha256 := sha, fetched_at := now, fetch_method := fetch_method }
  (dbUpsert db ⟨video_id, language, kind⟩ row,
   { transcript_text := text, segments := segments, sha256 := sha
     fetched_at := now, fetch_method := fetch_method, metadata := metadata
     is_auto_generated := is_auto_generated })

end CacheOps

/-! ## `server.search_videos`

The yt-dlp search call is an external collaborator: it is modelled as an
oracle from the constructed search-query string to one of three observable
outcomes (an exception, a non-dict `info`, or a dict with an optional
`entries` list whose elements may or may not be dicts).  The returned Python
dict is modelled as an ordered association list so that which keys are
present is observable. -/

structure SearchItem where
  video_id : List Char
  title : Option (List Char)
  channel : Option (List Char)
  duration_seconds : Option Int
  upload_date : Option (List Char)
  url : List Char
  view_count : Option Int
deriving DecidableEq

inductive RVal where
  | vStr (s : List Char)
  | vInt (n : Int)
  | vItems (l : List SearchItem)
deriving DecidableEq

def RDict : Type := List (List Char × RVal)

/-- Lookup of a key in the returned dict. -/
def rGet (d : RDict) (k : List Char) : Option RVal :=
  match d with
  | [] => none
  | (k', v) :: t => if k' = k then some v else rGet t k

def rHasKey (d : RDict) (k : List Char) : Bool := (rGet d k).isSome

/-- A dict element of `info["entries"]`, restricted to the keys the source
reads. -/
structure UpEntry where
  id : Option (List Char)
  title : Option (List Char)
  uploader : Option (List Char)
  channel : Option (List Char)
  duration : Option Int
  upload_date : Option (List Char)
  view_count : Option Int
deriving DecidableEq

/-- Outcome of `ydl.extract_info(search_query)`: an exception with message,
a non-dict result, or a dict whose `entries` key holds an optional list in
which `none` stands for a non-dict element. -/
inductive SearchUpstream where
  | err (msg : List Char)
  | notDict
  | okDict (entries : Option (List (Option UpEntry)))

/-- Python `a or b` on optional strings (`None` and `""` are falsy). -/
def pyOrOptStr (a b : Option (List Char)) : Option (List Char) :=
  match a with
  | some s => if s = [] then b else some s
  | none => b

/-- Python truthiness of `item.get("view_count")` (`None` and `0` falsy). -/
def pyTruthyVC (o : Option Int) : Bool :=
  match o with
  | some n => decide (n ≠ 0)
  | none => false

/-- The `for entry in entries[:limit]` loop: skip non-dict entries and
entries with a falsy `id`, build the item dict otherwise. -/
def buildItems (limit : ℕ) (entries : List (Option UpEntry)) : List SearchItem :=
  (entries.take limit).filterMap (fun oe =>
    match oe with
    | none => none
    | some e =>
      match e.id with
      | none => none
      | some vid =>
        if vid = [] then none
        else
          some
            { video_id := vid
              title := e.title
              channel := pyOrOptStr e.uploader e.channel
              duration_seconds := e.duration
              upload_date := e.upload_date
              url := "https://www.youtube.com/watch?v=".data ++ vid
              view_count := e.view_count })

/-- `limit = max(1, min(limit, 10))`. -/
def pyClamp (limit : Int) : Int := max 1 (min limit 10)

/-- `sort = sort or "relevance"; sort = sort.lower(); if sort not in
{"relevance", "views", "date"}: sort = "relevance"`. -/
def normSort (sort : List Char) : List Char :=
  let s1 := if sort = [] then "relevance".data else sort
  let s2 := pyLower s1
  if s2 = "relevance".data ∨ s2 = "views".data ∨ s2 = "date".data then s2
  else "relevance".data

/-- Decimal rendering of a nonnegative integer (for the f-string
`f"ytsearch{limit}:{query}"`); fuel-based so it evaluates in the kernel. -/
def natDigitsAux : ℕ → ℕ → List Char
  | 0, _ => []
  | fuel + 1, n =>
    if n < 10 then [Char.ofNat (48 + n)]
    else natDigitsAux fuel (n / 10) ++ [Char.ofNat (48 + n % 10)]

def natDigits (n : ℕ) : List Char := natDigitsAux (n + 1) n

def intToStr (n : Int) : List Char :=
  if n < 0 then '-' :: natDigits n.natAbs else natDigits n.natAbs

/-- `search_query = f"ytsearchdate{limit}:{query}"` or
`f"ytsearch{limit}:{query}"`. -/
def searchQueryFor (sort : List Char) (limit : Int) (query : List Char) :
    List Char :=
  if sort = "date".data then
    "ytsearchdate".data ++ intToStr limit ++ ':' :: query
  else
    "ytsearch".data ++ intToStr limit ++ ':' :: query

/-- `server.search_videos`, embedded from the source. -/
def search_videos (query : List Char) (limit : Int) (sort : List Char)
    (upstream : List Char → SearchUpstream) : RDict :=
  let limit' := pyClamp limit
  let sort' := normSort sort
  let sq := searchQueryFor sort' limit' query
  match upstream sq with
  | .err msg =>
    [("query".data, .vStr query), ("limit".data, .vInt limit'),
     ("items".data, .vItems []), ("error".data, .vStr msg)]
  | .notDict =>
    [("query".data, .vStr query), ("limit".data, .vInt limit'),
     ("items".data, .vItems [])]
  | .okDict entriesOpt =>
    let entries := entriesOpt.getD []
    let items := buildItems limit'.toNat entries
    let used_sort :=
      if sort' = "views".data ∧ ¬ items.any (fun it => pyTruthyVC it.view_count)
      then "relevance".data else sort'
    [("query".data, .vStr query), ("limit".data, .vInt limit'),
     ("sort_requested".data, .vStr sort'), ("sort_effective".data, .vStr used_sort),
     ("items".data, .vItems items)]

/-! ## The in-flight deduplication of `get_transcript`

The post-cache-miss part of `get_transcript` (`server.py`), for one fixed
dedup key `f"{video_id}:{lang}:{kind}"`, as a small-step interleaving
semantics.  Each logical request (thread) runs, in order:

* **join** — the `async with INFLIGHT_LOCK` block: atomically look the key
  up in `INFLIGHT`; if absent create a fresh pending future, register it,
  and become the owner; otherwise keep a reference to the registered future
  and become a waiter;
* owner: **fetch** — run `_fetch_transcript_with_policy`, whose outcome
  (normal result or a raised exception, converted by the `except` clause to
  `_format_error_response(str(exc))`) is given per-thread by an oracle;
  **resolve** — `future.set_result(...)` (both the `try` and the `except`
  path resolve before the `finally` runs, and the owner returns the
  resolved value); **pop** — the `finally` block removes the key from
  `INFLIGHT` (this runs on every exit path of the owner);
* waiter: **await** — `return await future`: once the referenced future is
  resolved, finish with its value.

Futures are allocated with generation numbers so that a later re-creation of
the key (possible in the unrestricted semantics once the key was popped) is
distinct from the first future.  `R` is the type of response values. -/

section Dedup

variable {R : Type}

/-- Outcome of the owner's `_fetch_transcript_with_policy` call: a normal
return or a raised exception (with message). -/
inductive FetchRes (R : Type) where
  | ok (r : R)
  | exc (msg : List Char)
deriving DecidableEq

/-- The value the owner resolves the future with: the normal result, or the
error envelope the `except` clause builds from the exception message. -/
def interpFetch (errEnv : List Char → R) : FetchRes R → R
  | .ok r => r
  | .exc m => errEnv m

inductive OwnerPhase (R : Type) where
  | needFetch
  | needResolve (v : R)
  | needPop (v : R)
deriving DecidableEq

/-- Per-thread control state. -/
inductive TSt (R : Type) where
  | start
  | owner (g : ℕ) (ph : OwnerPhase R)
  | waiter (g : ℕ)
  | finished (v : R)
deriving DecidableEq

/-- Global state: the registry entry for the key (`none` = key absent,
`some g` = generation `g`'s future registered), the next fresh generation,
the futures (`none` = pending, `some v` = resolved), and the threads. -/
structure DState (R : Type) where
  reg : Option ℕ
  nextG : ℕ
  futs : ℕ → Option R
  thr : ℕ → TSt R

inductive DLabel where
  | joinO (i : ℕ)
  | joinW (i : ℕ)
  | fetch (i : ℕ)
  | resolve (i : ℕ)
  | pop (i : ℕ)
  | await (i : ℕ)
deriving DecidableEq

def DLabel.thread : DLabel → ℕ
  | .joinO i => i
  | .joinW i => i
  | .fetch i => i
  | .resolve i => i
  | .pop i => i
  | .await i => i

def isJoinL : DLabel → Bool
  | .joinO _ => true
  | .joinW _ => true
  | _ => false

def isPopL : DLabel → Bool
  | .pop _ => true
  | _ => false

def isFetchL : DLabel → Bool
  | .fetch _ => true
  | _ => false

def isJoinOL : DLabel → Bool
  | .joinO _ => true
  | _ => false

/-- One interleaving step.  The lock-guarded sections (`join`, `pop`) and
the future operations (`resolve`, `await` readiness check) are atomic;
everything in between interleaves freely. -/
inductive DStep (outcome : ℕ → FetchRes R) (errEnv : List Char → R) :
    DState R → DLabel → DState R → Prop
  | joinO {s : DState R} {i : ℕ} :
      s.thr i = .start → s.reg = none →
      DStep outcome errEnv s (.joinO i)
        { reg := some s.nextG, nextG := s.nextG + 1, futs := s.futs
          thr := Function.update s.thr i (.owner s.nextG .needFetch) }
  | joinW {s : DState R} {i g : ℕ} :
      s.thr i = .start → s.reg = some g →
      DStep outcome errEnv s (.joinW i)
        { s with thr := Function.update s.thr i (.waiter g) }
  | fetch {s : DState R} {i g : ℕ} :
      s.thr i = .owner g .needFetch →
      DStep outcome errEnv s (.fetch i)
        { s with
          thr := Function.update s.thr i
            (.owner g (.needResolve (interpFetch errEnv (outcome i)))) }
  | resolve {s : DState R} {i g : ℕ} {v : R} :
      s.thr i = .owner g (.needResolve v) →
      DStep outcome errEnv s (.resolve i)
        { s with futs := Function.update s.futs g (some v)
                 thr := Function.update s.thr i (.owner g (.needPop v)) }
  | pop {s : DState R} {i g : ℕ} {v : R} :
      s.thr i = .owner g (.needPop v) →
      DStep outcome errEnv s (.pop i)
        { s with reg := none, thr := Function.update s.thr i (.finished v) }
  | await {s : DState R} {i g : ℕ} {v : R} :
      s.thr i = .waiter g → s.futs g = some v →
      DStep outcome errEnv s (.await i)
        { s with thr := Function.update s.thr i (.finished v) }

/-- Reflexive-transitive closure labelled by the trace. -/
inductive DSteps (outcome : ℕ → FetchRes R) (errEnv : List Char → R) :
    DState R → List DLabel → DState R → Prop
  | nil {s : DState R} : DSteps outcome errEnv s [] s
  | cons {s s₁ s₂ : DState R} {l : DLabel} {ls : List DLabel} :
      DStep outcome errEnv s l s₁ → DSteps outcome errEnv s₁ ls s₂ →
      DSteps outcome errEnv s (l :: ls) s₂

/-- Initial state: key absent, no futures, all threads about to join (the
"no cache entry exists" situation: every request missed the cache). -/
def dInit (R : Type) : DState R :=
  { reg := none, nextG := 0, futs := fun _ => none, thr := fun _ => .start }

/-- `noJoinAfterPop false tr` formalizes "all requests are issued
concurrently": every registry join happens before any registry removal in
the trace. -/
def noJoinAfterPop : Bool → List DLabel → Bool
  | _, [] => true
  | seenPop, l :: t =>
    if isJoinL l && seenPop then false
    else noJoinAfterPop (seenPop || isPopL l) t

/-- Invariant of the unique owner thread `io`: its phase, the slot state
`st`, and the number of fetch events so far agree. -/
def PhaseOk (outcome : ℕ → FetchRes R) (errEnv : List Char → R) (io : ℕ) :
    OwnerPhase R → Option R → ℕ → Prop
  | .needFetch, st, fc => st = none ∧ fc = 0
  | .needResolve v, st, fc => v = interpFetch errEnv (outcome io) ∧ st = none ∧ fc = 1
  | .needPop v, st, fc => v = interpFetch errEnv (outcome io) ∧ st = some v ∧ fc = 1

/-- Invariant of every non-owner thread: not yet joined, waiting on
generation 0, or finished with the resolved value of generation 0. -/
def ThreadOk (t : TSt R) (st : Option R) : Prop :=
  t = .start ∨ t = .waiter 0 ∨ ∃ v, t = .finished v ∧ st = some v

/-- Reachability invariant during the pop-free phase of a trace ("all joins
before any removal"): either nobody has joined, or generation 0 is
registered with a unique owner. `fc`/`jc` count fetch / owner-join events
consumed so far. -/
def InvA (outcome : ℕ → FetchRes R) (errEnv : List Char → R) (n : ℕ)
    (s : DState R) (fc jc : ℕ) : Prop :=
  (s.nextG = 0 ∧ s.reg = none ∧ (∀ i, s.thr i = .start) ∧ (∀ g, s.futs g = none)
    ∧ fc = 0 ∧ jc = 0) ∨
  (s.nextG = 1 ∧ s.reg = some 0 ∧ jc = 1 ∧
    ∃ io, io < n ∧
      (∃ ph, s.thr io = .owner 0 ph ∧ PhaseOk outcome errEnv io ph (s.futs 0) fc) ∧
      (∀ j, j ≠ io → ThreadOk (s.thr j) (s.futs 0)))

/-- Reachability invariant during the join-free phase: the unique owner of
generation 0 either still holds the registration or has already resolved,
popped the key and finished. -/
def InvB (outcome : ℕ → FetchRes R) (errEnv : List Char → R) (n : ℕ)
    (s : DState R) (fc : ℕ) : Prop :=
  s.nextG = 1 ∧
  ∃ io, io < n ∧
    ((s.reg = some 0 ∧
        ∃ ph, s.thr io = .owner 0 ph ∧ PhaseOk outcome errEnv io ph (s.futs 0) fc) ∨
     (s.reg = none ∧
        ∃ v, s.thr io = .finished v ∧ v = interpFetch errEnv (outcome io) ∧
          s.futs 0 = some v ∧ fc = 1)) ∧
    (∀ j, j ≠ io → ThreadOk (s.thr j) (s.futs 0))

end Dedup

/-! ## Concrete scenario data (used by claim theorems and witnesses) -/

/-- A concrete classification with the transcript library available. -/
def clsLib : FetchClassification :=
  ⟨"YT_TRANSCRIPT_API".data, ["youtube_transcript_api".data], false⟩

def pLib : FetchPolicy := policy_for clsLib

/-- A rate-limited exception whose message carries a retry-after hint. -/
def exc429 : PyExc :=
  ⟨none, none, "HTTP Error 429: Too Many Requests; retry-after: 7".data⟩

/-- Environment: rate-limit once (with hint), then `NoTranscriptFound`. -/
def env429 : LoopEnv :=
  { outcomes := fun k => if k = 0 then .exc exc429 else .notFound
    waits := fun _ => ⟨0, 0, 0, 0⟩
    rlNow := fun _ => 0 }

/-- Environment: every attempt is rate-limited. -/
def envAll429 : LoopEnv :=
  { outcomes := fun _ => .exc exc429
    waits := fun _ => ⟨0, 0, 0, 0⟩
    rlNow := fun _ => 0 }

/-- Environment: the first attempt raises `NoTranscriptFound`. -/
def envNF : LoopEnv :=
  { outcomes := fun _ => .notFound
    waits := fun _ => ⟨0, 0, 0, 0⟩
    rlNow := fun _ => 0 }

/-- Concrete dedup run: both requests hit an erroring fetch. -/
def dedupOutcome : ℕ → FetchRes (List Char) := fun _ => .exc "boom".data

def dedupErrEnv : List Char → List Char := fun m => "error: ".data ++ m

def dedupTrace : List DLabel :=
  [.joinO 0, .joinW 1, .fetch 0, .resolve 0, .pop 0, .await 1]

/-- The state reached by `dedupTrace` from `dInit` (two threads). -/
def dedupFinal : DState (List Char) :=
  { reg := none, nextG := 1
    futs := Function.update (fun _ => none) 0
      (some (interpFetch dedupErrEnv (dedupOutcome 0)))
    thr := Function.update (Function.update (Function.update (Function.update
      (Function.update
        (Function.update (fun _ => TSt.start) 0 (TSt.owner 0 .needFetch))
        1 (TSt.waiter 0))
        0 (TSt.owner 0 (.needResolve (interpFetch dedupErrEnv (dedupOutcome 0)))))
        0 (TSt.owner 0 (.needPop (interpFetch dedupErrEnv (dedupOutcome 0)))))
        0 (TSt.finished (interpFetch dedupErrEnv (dedupOutcome 0))))
        1 (TSt.finished (interpFetch dedupErrEnv (dedupOutcome 0))) }

/-! # Theorems

General list lemmas used by several claims, then the claim theorems in
order C1–C10 (each with witness/counterexample where required). -/

theorem takeWhile_append_of_all {p : Char → Bool} {u v : List Char} {y : Char}
    (hu : ∀ x ∈ u, p x = true) (hy : p y = false) :
    (u ++ y :: v).takeWhile p = u := by
  induction u with
  | nil => simp [List.takeWhile, hy]
  | cons a t ih =>
    have ha : p a = true := hu a (by simp)
    simp only [List.cons_append, List.takeWhile_cons, ha, if_true]
    rw [ih (fun x hx => hu x (by simp [hx]))]

theorem takeWhile_eq_self_of_all {p : Char → Bool} {u : List Char}
    (hu : ∀ x ∈ u, p x = true) : u.takeWhile p = u := by
  induction u with
  | nil => rfl
  | cons a t ih =>
    have ha : p a = true := hu a (by simp)
    simp only [List.takeWhile_cons, ha, if_true]
    rw [ih (fun x hx => hu x (by simp [hx]))]

theorem dropWhile_append_of_all {p : Char → Bool} {u v : List Char} {y : Char}
    (hu : ∀ x ∈ u, p x = true) (hy : p y = false) :
    (u ++ y :: v).dropWhile p = y :: v := by
  induction u with
  | nil => simp [List.dropWhile, hy]
  | cons a t ih =>
    have ha : p a = true := hu a (by simp)
    simp only [List.cons_append, List.dropWhile_cons, ha, if_true]
    exact ih (fun x hx => hu x (by simp [hx]))

theorem dropWhile_eq_self_of_all {p : Char → Bool} {u : List Char}
    (hu : ∀ x ∈ u, p x = false) : u.dropWhile p = u := by
  cases u with
  | nil => rfl
  | cons a t => simp [List.dropWhile_cons, hu a (by simp)]

theorem hasSub_of_decomp {hay a needle b : List Char}
    (h : hay = a ++ (needle ++ b)) : hasSub hay needle = true := by
  induction a generalizing hay with
  | nil =>
    subst h
    unfold hasSub
    simp only [List.nil_append, Bool.or_eq_true]
    exact Or.inl (List.isPrefixOf_iff_prefix.mpr ⟨b, rfl⟩)
  | cons c t ih =>
    subst h
    unfold hasSub
    simp only [List.cons_append, Bool.or_eq_true]
    exact Or.inr (ih rfl)

theorem decomp_of_hasSub {hay needle : List Char}
    (h : hasSub hay needle = true) : ∃ a b, hay = a ++ (needle ++ b) := by
  induction hay with
  | nil =>
    unfold hasSub at h
    simp only [Bool.or_false] at h
    exact ⟨[], [], by
      obtain ⟨t, ht⟩ := List.isPrefixOf_iff_prefix.mp h
      simp at ht
      simp [ht.1]⟩
  | cons c tl ih =>
    unfold hasSub at h
    rcases Bool.or_eq_true_iff.mp h with h1 | h2
    · obtain ⟨t, ht⟩ := List.isPrefixOf_iff_prefix.mp h1
      exact ⟨[], t, by simp [ht.symm]⟩
    · obtain ⟨a, b, hab⟩ := ih h2
      exact ⟨c :: a, b, by simp [hab]⟩

theorem hasSub_slash_of_scheme {t : List Char}
    (h : hasSub t "://".data = true) : hasSub t ['/'] = true := by
  obtain ⟨a, b, hab⟩ := decomp_of_hasSub h
  exact hasSub_of_decomp (a := a ++ [':']) (b := '/' :: b) (by simp [hab])

theorem afterLastChar_eq {c : Char} {xs ys : List Char}
    (h : ∀ x ∈ ys, x ≠ c) : afterLastChar c (xs ++ c :: ys) = ys := by
  unfold afterLastChar
  have : (xs ++ c :: ys).reverse = ys.reverse ++ c :: xs.reverse := by
    simp
  rw [this, takeWhile_append_of_all
    (fun x hx => by simp [h x (by simpa using hx)]) (by simp),
    List.reverse_reverse]

theorem takeUntilChar_append {c : Char} {u v : List Char}
    (h : ∀ x ∈ u, x ≠ c) : takeUntilChar c (u ++ c :: v) = u := by
  unfold takeUntilChar
  exact takeWhile_append_of_all (fun x hx => by simp [h x hx]) (by simp)

theorem takeUntilChar_of_not_mem {c : Char} {u : List Char}
    (h : ∀ x ∈ u, x ≠ c) : takeUntilChar c u = u := by
  unfold takeUntilChar
  exact takeWhile_eq_self_of_all (fun x hx => by simp [h x hx])

theorem pyLower_append (a b : List Char) :
    pyLower (a ++ b) = pyLower a ++ pyLower b := by
  simp [pyLower]

theorem pyStrip_eq_self_of_all {u : List Char}
    (h : ∀ x ∈ u, isPyWS x = false) : pyStrip u = u := by
  unfold pyStrip
  rw [dropWhile_eq_self_of_all h,
      dropWhile_eq_self_of_all (fun x hx => h x (by simpa using hx)),
      List.reverse_reverse]

/-! ## C2 — identifier resolution (`utils.extract_video_id`) -/

/-- C2 (amended).  Identifier resolution on the whitespace-stripped input
`t = pyStrip s`: (1) an 11-character stripped input containing neither
`"://"` nor `"/"` is returned as-is; (2) a `youtu.be/ID` URL yields `ID`
with any trailing `?...` stripped, provided neither `ID` nor the trailing
part contains a further `/`; (3) a `/shorts/ID` URL on a youtube.com host
yields `ID` with any trailing `?...` stripped; (4) a youtube-host
`watch?v=ID` URL yields the value of the `v` query parameter; (5) otherwise,
for a non-youtube-host input containing `/`, the last `/`-delimited path
segment of the `/`-right-stripped input is returned when it is at least 6
characters long, else the stripped input unchanged; (6) a non-youtube-host
input without `/` is returned unchanged; (7) each of the four example inputs
maps to `dQw4w9WgXcQ`. -/
theorem extract_video_id_resolution :
    (∀ s t, pyStrip s = t → t.length = 11 → hasSub t "://".data = false →
      hasSub t ['/'] = false → extract_video_id s = t) ∧
    (∀ s p vid r, pyStrip s = p ++ "youtu.be/".data ++ (vid ++ r) →
      (∀ x ∈ vid, x ≠ '/') → (∀ x ∈ vid, x ≠ '?') → (∀ x ∈ r, x ≠ '/') →
      (r = [] ∨ ∃ r', r = '?' :: r') →
      extract_video_id s = vid) ∧
    (∀ s p vid r, pyStrip s = p ++ "/shorts/".data ++ (vid ++ r) →
      hasSub (pyLower (p ++ "/shorts/".data ++ (vid ++ r))) "youtube.com".data = true →
      hasSub (pyLower (p ++ "/shorts/".data ++ (vid ++ r))) "youtu.be/".data = false →
      afterFirstSub "/shorts/".data (p ++ "/shorts/".data ++ (vid ++ r)) = vid ++ r →
      (∀ x ∈ vid, x ≠ '?') → (r = [] ∨ ∃ r', r = '?' :: r') →
      extract_video_id s = vid) ∧
    (∀ s t val, pyStrip s = t →
      (hasSub (pyLower t) "youtube.com".data || hasSub (pyLower t) "youtu.be".data) = true →
      hasSub t ['/'] = true →
      hasSub (pyLower t) "youtu.be/".data = false →
      hasSub (pyLower t) "/shorts/".data = false →
      hasSub (pyLower t) "watch?".data = true → hasSub (pyLower t) "v=".data = true →
      watchVParam t = some val →
      extract_video_id s = val) ∧
    (∀ s t, pyStrip s = t →
      hasSub (pyLower t) "youtube.com".data = false →
      hasSub (pyLower t) "youtu.be".data = false →
      hasSub t ['/'] = true →
      extract_video_id s =
        (if 6 ≤ (afterLastChar '/' (rstripChar '/' t)).length
         then afterLastChar '/' (rstripChar '/' t) else t)) ∧
    (∀ s t, pyStrip s = t →
      hasSub (pyLower t) "youtube.com".data = false →
      hasSub (pyLower t) "youtu.be".data = false →
      hasSub t ['/'] = false →
      extract_video_id s = t) ∧
    (extract_video_id "dQw4w9WgXcQ".data = "dQw4w9WgXcQ".data ∧
     extract_video_id "https://www.youtube.com/watch?v=dQw4w9WgXcQ&t=10".data
       = "dQw4w9WgXcQ".data ∧
     extract_video_id "https://youtu.be/dQw4w9WgXcQ".data = "dQw4w9WgXcQ".data ∧
     extract_video_id "https://www.youtube.com/shorts/dQw4w9WgXcQ".data
       = "dQw4w9WgXcQ".data) := by
  refine ⟨?_, ?_, ?_, ?_, ?_, ?_, ?_⟩
  · -- (1) bare 11-character identifier
    intro s t hst hlen h1 h2
    unfold extract_video_id
    rw [hst]
    simp [hlen, h1, h2]
  · -- (2) youtu.be/ID
    intro s p vid r hdec hv1 hv2 hr1 hr2
    have ht : pyStrip s = (p ++ "youtu.be".data) ++ '/' :: (vid ++ r) := by
      rw [hdec]; simp
    have hslash : hasSub (pyStrip s) ['/'] = true :=
      hasSub_of_decomp (a := p ++ "youtu.be".data) (b := vid ++ r) (by simpa using ht)
    have hlow : pyLower (pyStrip s)
        = pyLower p ++ ("youtu.be/".data ++ pyLower (vid ++ r)) := by
      rw [hdec, pyLower_append, pyLower_append,
        (show pyLower "youtu.be/".data = "youtu.be/".data by decide),
        List.append_assoc]
    have hyb : hasSub (pyLower (pyStrip s)) "youtu.be/".data = true :=
      hasSub_of_decomp hlow
    have hdom : hasSub (pyLower (pyStrip s)) "youtu.be".data = true := by
      refine hasSub_of_decomp (a := pyLower p) (b := ['/'] ++ pyLower (vid ++ r)) ?_
      rw [hlow]; simp
    have hlast : afterLastChar '/' (pyStrip s) = vid ++ r := by
      rw [ht]
      exact afterLastChar_eq (fun x hx => by
        rcases List.mem_append.mp hx with h | h
        · exact hv1 x h
        · exact hr1 x h)
    have htake : takeUntilChar '?' (vid ++ r) = vid := by
      rcases hr2 with rfl | ⟨r', rfl⟩
      · simpa using takeUntilChar_of_not_mem hv2
      · exact takeUntilChar_append hv2
    unfold extract_video_id youtubeBranch
    simp [hslash, hdom, hyb, hlast, htake]
  · -- (3) /shorts/ID
    intro s p vid r hdec hdom hyb hfirst hv2 hr2
    have hslash : hasSub (pyStrip s) ['/'] = true := by
      refine hasSub_of_decomp (a := p) (b := "shorts/".data ++ (vid ++ r)) ?_
      rw [hdec]; simp
    have hlow : pyLower (pyStrip s)
        = pyLower p ++ ("/shorts/".data ++ pyLower (vid ++ r)) := by
      rw [hdec, pyLower_append, pyLower_append,
        (show pyLower "/shorts/".data = "/shorts/".data by decide),
        List.append_assoc]
    have hsh : hasSub (pyLower (pyStrip s)) "/shorts/".data = true :=
      hasSub_of_decomp hlow
    have hdom' : hasSub (pyLower (pyStrip s)) "youtube.com".data = true := by
      rw [hdec]; exact hdom
    have hyb' : hasSub (pyLower (pyStrip s)) "youtu.be/".data = false := by
      rw [hdec]; exact hyb
    have hfirst' : afterFirstSub "/shorts/".data (pyStrip s) = vid ++ r := by
      rw [hdec]; exact hfirst
    have htake : takeUntilChar '?' (vid ++ r) = vid := by
      rcases hr2 with rfl | ⟨r', rfl⟩
      · simpa using takeUntilChar_of_not_mem hv2
      · exact takeUntilChar_append hv2
    unfold extract_video_id youtubeBranch
    simp [hslash, hdom', hyb', hsh, hfirst', htake]
  · -- (4) watch?v=ID
    intro s t val hst hdom hslash hyb hsh hw hv hfind
    unfold extract_video_id youtubeBranch
    rw [hst]
    simp [hslash, hdom, hyb, hsh, hw, hv, hfind]
  · -- (5) fallback, input contains "/"
    intro s t hst hdc hdb hslash
    unfold extract_video_id youtubeBranch
    rw [hst]
    simp [hslash, hdc, hdb]
  · -- (6) fallback, input without "/"
    intro s t hst hdc hdb hslash
    have hcss : hasSub t "://".data = false := by
      cases h : hasSub t "://".data with
      | false => rfl
      | true => rw [hasSub_slash_of_scheme h] at hslash; exact hslash
    unfold extract_video_id youtubeBranch
    rw [hst]
    cases hlen : t.length == 11 with
    | true => simp [hlen, hcss, hslash]
    | false => simp [hlen, hcss, hslash, hdc, hdb]
  · -- (7) the four examples
    exact ⟨by decide, by decide, by decide, by decide⟩

/-- C2 counterexample: the clauses as literally claimed fail on the code.
An 11-character input with a leading space (neither `"://"` nor `"/"` in it)
is *not* returned as-is (the source strips whitespace first); and a
`youtu.be/ID` URL whose query part contains `/` does not yield `ID` (the
source takes the segment after the *last* slash). -/
theorem extract_video_id_claim_refuted :
    ((" dQw4w9WgXc".data : List Char).length = 11 ∧
     hasSub " dQw4w9WgXc".data "://".data = false ∧
     hasSub " dQw4w9WgXc".data ['/'] = false ∧
     extract_video_id " dQw4w9WgXc".data ≠ " dQw4w9WgXc".data) ∧
    extract_video_id "https://youtu.be/dQw4w9WgXcQ?a/b".data = "b".data := by
  decide

/-- Witness for C2: clauses (1) and (2) applied at concrete inputs. -/
theorem extract_video_id_resolution_witness :
    extract_video_id " dQw4w9WgXcQ ".data = "dQw4w9WgXcQ".data ∧
    extract_video_id "https://youtu.be/dQw4w9WgXcQ?t=1".data = "dQw4w9WgXcQ".data := by
  constructor
  · exact extract_video_id_resolution.1 " dQw4w9WgXcQ ".data "dQw4w9WgXcQ".data
      (by decide) (by decide) (by decide) (by decide)
  · exact extract_video_id_resolution.2.1 "https://youtu.be/dQw4w9WgXcQ?t=1".data
      "https://".data "dQw4w9WgXcQ".data "?t=1".data
      (by decide) (by decide) (by decide) (by decide) (Or.inr ⟨"t=1".data, rfl⟩)

/-! ## C4 — cooldown escalation (`RequestThrottler.register_rate_limit`) -/

/-- C4.  Two consecutive `register_rate_limit` calls with no intervening
`register_success` set `cooldown_until` to at least `now + cooldown_seconds`
(at the second call's clock value), while from a state with a zero
consecutive count a single `register_rate_limit` leaves `cooldown_until`
unchanged, and so does a following `register_success`. -/
theorem register_rate_limit_escalation (p : FetchPolicy) (s : ThrottleState)
    (n1 n2 : ℚ) (h : s.consecutive_429 = 0) :
    n2 + p.cooldown_seconds ≤
      (register_rate_limit p n2 (register_rate_limit p n1 s)).cooldown_until ∧
    (register_rate_limit p n1 s).cooldown_until = s.cooldown_until ∧
    (register_success (register_rate_limit p n1 s)).cooldown_until
      = s.cooldown_until := by
  refine ⟨?_, ?_, ?_⟩
  · simp [register_rate_limit]
  · simp [register_rate_limit, h]
  · simp [register_success, register_rate_limit, h]

/-- Witness for C4 at a concrete state and clock values. -/
theorem register_rate_limit_escalation_witness :
    (⟨0, 0, 0⟩ : ThrottleState).consecutive_429 = 0 ∧
    ((100 : ℚ) + pLib.cooldown_seconds ≤
      (register_rate_limit pLib 100 (register_rate_limit pLib 50 ⟨0, 0, 0⟩)).cooldown_until ∧
    (register_rate_limit pLib 50 (⟨0, 0, 0⟩ : ThrottleState)).cooldown_until = (0 : ℚ) ∧
    (register_success (register_rate_limit pLib 50 ⟨0, 0, 0⟩)).cooldown_until = (0 : ℚ)) :=
  ⟨rfl, register_rate_limit_escalation pLib ⟨0, 0, 0⟩ 50 100 rfl⟩

/-! ## C7 — minimum spacing of `wait_for_slot` grants -/

/-- The concrete policy used by witnesses, evaluated. -/
theorem pLib_eq :
    pLib = { fetch_method := "YT_TRANSCRIPT_API".data, auth_required := false
             ttl_seconds := 5184000, min_interval_seconds := 8, jitter_seconds := 2
             max_retries := 3, backoff_base_seconds := 2, backoff_max_seconds := 60
             cooldown_seconds := 900, safe_max_per_hour := 5 } := by
  simp only [pLib, clsLib, policy_for]
  norm_num
  intro h
  exact absurd h (by decide)

/-- C7.  `wait_for_slot` stamps `last_request_at` with the final clock read
(the grant time) on every path, and for two successive calls whose
clock/sleep observations satisfy `WaitConsistent`, the second grant is never
earlier than `min_interval_seconds` after the first. -/
theorem wait_for_slot_spacing (p : FetchPolicy) (s : ThrottleState)
    (w1 w2 : WaitSamples) (_h1 : WaitConsistent p s w1)
    (h2 : WaitConsistent p (wait_for_slot s w1) w2) :
    (wait_for_slot s w1).last_request_at = w1.now3 ∧
    (wait_for_slot (wait_for_slot s w1) w2).last_request_at = w2.now3 ∧
    w1.now3 + p.min_interval_seconds ≤ w2.now3 := by
  refine ⟨rfl, rfl, ?_⟩
  obtain ⟨-, hj0, -, hgap⟩ := h2
  simp only [wait_for_slot] at hgap
  by_cases hc : w2.now2 - w1.now3 < p.min_interval_seconds + w2.jitter
  · rw [if_pos hc] at hgap
    linarith
  · rw [if_neg hc] at hgap
    push_neg at hc
    linarith

/-- Witness for C7 at concrete observations (the second call has to sleep
8 + 1 - 1 seconds, waking at 29). -/
theorem wait_for_slot_spacing_witness :
    (wait_for_slot (⟨0, 0, 0⟩ : ThrottleState) ⟨20, 20, 20, 0⟩).last_request_at = (20 : ℚ) ∧
    (wait_for_slot (wait_for_slot (⟨0, 0, 0⟩ : ThrottleState) ⟨20, 20, 20, 0⟩)
      ⟨21, 21, 29, 1⟩).last_request_at = (29 : ℚ) ∧
    (20 : ℚ) + pLib.min_interval_seconds ≤ (29 : ℚ) := by
  have h1 : WaitConsistent pLib ⟨0, 0, 0⟩ ⟨20, 20, 20, 0⟩ := by
    rw [pLib_eq]
    unfold WaitConsistent
    norm_num
  have h2 : WaitConsistent pLib (wait_for_slot ⟨0, 0, 0⟩ ⟨20, 20, 20, 0⟩) ⟨21, 21, 29, 1⟩ := by
    rw [pLib_eq]
    unfold WaitConsistent wait_for_slot
    norm_num
  exact wait_for_slot_spacing pLib ⟨0, 0, 0⟩ ⟨20, 20, 20, 0⟩ ⟨21, 21, 29, 1⟩ h1 h2

/-! ## C10 — frame property of `register_success` -/

/-- C10.  `register_success` resets only the consecutive rate-limit counter:
`cooldown_until` and `last_request_at` are unchanged; and when a cooldown is
in effect at the next `wait_for_slot` call (`now1 < cooldown_until`), that
call is granted (stamped) no earlier than `cooldown_until`. -/
theorem register_success_frame (p : FetchPolicy) (s : ThrottleState)
    (w : WaitSamples)
    (hcool : w.now1 < (register_success s).cooldown_until)
    (hw : WaitConsistent p (register_success s) w) :
    (register_success s).cooldown_until = s.cooldown_until ∧
    (register_success s).last_request_at = s.last_request_at ∧
    (register_success s).consecutive_429 = 0 ∧
    s.cooldown_until ≤ (wait_for_slot (register_success s) w).last_request_at := by
  refine ⟨rfl, rfl, rfl, ?_⟩
  obtain ⟨hc, hj0, -, hgap⟩ := hw
  rw [if_pos hcool] at hc
  have h23 : w.now2 ≤ w.now3 := by
    by_cases hlt : w.now2 - (register_success s).last_request_at
        < p.min_interval_seconds + w.jitter
    · rw [if_pos hlt] at hgap
      linarith
    · rwa [if_neg hlt] at hgap
  simpa [wait_for_slot, register_success] using le_trans (le_trans hc h23) (le_refl _)

/-- Witness for C10: a success during an active cooldown neither cancels it
nor lets the next slot be granted before it expires. -/
theorem register_success_frame_witness :
    (register_success ⟨0, 500, 1⟩).cooldown_until = (500 : ℚ) ∧
    (register_success ⟨0, 500, 1⟩).last_request_at = (0 : ℚ) ∧
    (register_success ⟨0, 500, 1⟩).consecutive_429 = 0 ∧
    (500 : ℚ) ≤ (wait_for_slot (register_success ⟨0, 500, 1⟩)
      ⟨10, 500, 510, 0⟩).last_request_at := by
  have hcool : (10 : ℚ) < (register_success ⟨0, 500, 1⟩).cooldown_until := by
    norm_num [register_success]
  have hw : WaitConsistent pLib (register_success ⟨0, 500, 1⟩) ⟨10, 500, 510, 0⟩ := by
    rw [pLib_eq]
    unfold WaitConsistent register_success
    norm_num
  exact register_success_frame pLib ⟨0, 500, 1⟩ ⟨10, 500, 510, 0⟩ hcool hw

/-! ## C3 — the retry-after hint (`parse_retry_after_seconds`) -/

theorem matchRetryAfterAt_shape {cs g : List Char}
    (h : matchRetryAfterAt cs = some g) :
    ∃ ds, g = '\\' :: ds ∧ ds ≠ [] ∧ ds.all isDChar = true := by
  unfold matchRetryAfterAt at h
  cases hm : matchLitCI "retry-after".data cs with
  | none => rw [hm] at h; exact absurd h (by simp)
  | some r1 =>
    rw [hm] at h
    dsimp only at h
    cases r1 with
    | nil => exact absurd h (by simp)
    | cons c r2 =>
      dsimp only at h
      by_cases hc : (c == ':' || c == '=') = true
      case neg => rw [Bool.not_eq_true] at hc; rw [if_neg (by simp [hc])] at h; exact absurd h (by simp)
      rw [if_pos hc] at h
      cases r2 with
      | nil => exact absurd h (by simp)
      | cons b1 r3 =>
        dsimp only at h
        by_cases hb1 : b1 = '\\'
        case neg => rw [if_neg hb1] at h; exact absurd h (by simp)
        rw [if_pos hb1] at h
        cases hd : r3.dropWhile isSChar with
        | nil => rw [hd] at h; exact absurd h (by simp)
        | cons b2 r5 =>
          rw [hd] at h
          dsimp only at h
          by_cases hb2 : b2 = '\\'
          case neg => rw [if_neg hb2] at h; exact absurd h (by simp)
          rw [if_pos hb2] at h
          by_cases he : (r5.takeWhile isDChar).isEmpty = true
          case pos => rw [if_pos he] at h; exact absurd h (by simp)
          rw [if_neg he] at h
          simp only [Option.some.injEq] at h
          refine ⟨r5.takeWhile isDChar, h.symm,
            by simpa [List.isEmpty_iff] using he, ?_⟩
          rw [List.all_eq_true]
          intro x hx
          exact List.mem_takeWhile_imp hx

theorem reSearchRetryAfter_shape {msg g : List Char}
    (h : reSearchRetryAfter msg = some g) :
    ∃ ds, g = '\\' :: ds ∧ ds ≠ [] ∧ ds.all isDChar = true := by
  induction msg with
  | nil => exact matchRetryAfterAt_shape h
  | cons c cs ih =>
    unfold reSearchRetryAfter at h
    cases hm : matchRetryAfterAt (c :: cs) with
    | some g' =>
      rw [hm] at h
      simp only [Option.some.injEq] at h
      exact h ▸ matchRetryAfterAt_shape hm
    | none =>
      rw [hm] at h
      exact ih h

theorem pyIntOfString_backslash {ds : List Char} (_hne : ds ≠ [])
    (hall : ds.all isDChar = true) : pyIntOfString ('\\' :: ds) = none := by
  have hstrip : pyStrip ('\\' :: ds) = '\\' :: ds := by
    apply pyStrip_eq_self_of_all
    intro x hx
    rcases List.mem_cons.mp hx with rfl | hx'
    · decide
    · have hd : isDChar x = true := List.all_eq_true.mp hall x hx'
      have hxd : x = 'd' ∨ x = 'D' := by simpa [isDChar] using hd
      rcases hxd with rfl | rfl <;> decide
  have hdig : digitsVal ('\\' :: ds) = none := by
    unfold digitsVal
    rw [if_neg]
    rintro ⟨-, hall'⟩
    have := List.all_eq_true.mp hall' '\\' (by simp)
    exact absurd this (by decide)
  unfold pyIntOfString
  rw [hstrip]
  exact hdig

/-- C3 evidence.  `parse_retry_after_seconds` returns `None` for *every*
message: the raw-string pattern `r"retry-after[:=]\\s*(\\d+)"` requires
literal backslashes, and any captured group starts with a backslash, so
`int(...)` always raises.  Consequently the retry loop's
`retry_after or min(...)` always takes the backoff fallback: with the
library policy, a first-attempt rate limit whose message carries
"retry-after: 7" sleeps `min(60, 2 * 2^0) = 2` seconds, not 7. -/
theorem parse_retry_after_seconds_always_none :
    (∀ msg, parse_retry_after_seconds msg = none) ∧
    is_rate_limit_error exc429 = true ∧
    hasSub (pyLower exc429.msg) "retry-after: 7".data = true ∧
    (fetchLoop pLib env429 "dQw4w9WgXcQ".data "en".data 0 throttlerInit).delays
      = [2] := by
  have hnone : ∀ msg, parse_retry_after_seconds msg = none := by
    intro msg
    unfold parse_retry_after_seconds
    cases hs : reSearchRetryAfter msg with
    | none => rfl
    | some g =>
      obtain ⟨ds, rfl, hne, hall⟩ := reSearchRetryAfter_shape hs
      exact pyIntOfString_backslash hne hall
  refine ⟨hnone, by decide, by decide, ?_⟩
  have hrlT : is_rate_limit_error exc429 = true := by decide
  rw [pLib_eq, fetchLoop.eq_def]
  norm_num [env429, hrlT, hnone, pyOrDelay]
  rw [fetchLoop.eq_def]
  norm_num [env429]

/-! ## C6 — exhausting retries on persistent rate limiting -/

theorem fetchLoop_all_rate_limited_aux (p : FetchPolicy) (env : LoopEnv)
    (v l : List Char)
    (hrl : ∀ k, ∃ e, env.outcomes k = FetchOutcome.exc e ∧ is_rate_limit_error e = true) :
    ∀ d attempt s, p.max_retries - attempt = d → attempt ≤ p.max_retries →
      (fetchLoop p env v l attempt s).attempts = p.max_retries + 1 - attempt ∧
      (fetchLoop p env v l attempt s).resp =
        _format_error_response p v l "Rate limited (429): cooldown in effect".data := by
  intro d
  induction d with
  | zero =>
    intro attempt s hd hle
    obtain ⟨e, he, hrle⟩ := hrl attempt
    rw [fetchLoop.eq_def]
    simp only [he, hrle, if_true]
    rw [dif_pos (by omega : p.max_retries ≤ attempt)]
    exact ⟨by simp; omega, rfl⟩
  | succ d ih =>
    intro attempt s hd hle
    obtain ⟨e, he, hrle⟩ := hrl attempt
    rw [fetchLoop.eq_def]
    simp only [he, hrle, if_true]
    rw [dif_neg (by omega : ¬ p.max_retries ≤ attempt)]
    have hrec := ih (attempt + 1)
      (register_rate_limit p (env.rlNow attempt) (wait_for_slot s (env.waits attempt)))
      (by omega) (by omega)
    refine ⟨?_, ?_⟩
    · simp only []
      rw [hrec.1]
      omega
    · simp only []
      exact hrec.2

/-- C6.  When every fetch attempt yields a rate-limit-classified exception,
the retry loop performs exactly `max_retries + 1` fetch attempts (counter
from 0, terminal once `attempt >= max_retries`) and returns the terminal
rate-limit envelope, whose message indicates rate limiting. -/
theorem rate_limit_exhaustion (p : FetchPolicy) (env : LoopEnv)
    (v l : List Char) (s : ThrottleState)
    (hrl : ∀ k, ∃ e, env.outcomes k = FetchOutcome.exc e ∧ is_rate_limit_error e = true) :
    (fetchLoop p env v l 0 s).attempts = p.max_retries + 1 ∧
    (fetchLoop p env v l 0 s).resp =
      _format_error_response p v l "Rate limited (429): cooldown in effect".data ∧
    (fetchLoop p env v l 0 s).resp.error
      = some "Rate limited (429): cooldown in effect".data ∧
    hasSub (pyLower "Rate limited (429): cooldown in effect".data)
      "rate limit".data = true := by
  have h := fetchLoop_all_rate_limited_aux p env v l hrl (p.max_retries - 0) 0 s rfl
    (by omega)
  refine ⟨by rw [h.1]; omega, h.2, by rw [h.2]; rfl, by decide⟩

/-- Witness for C6: with the library policy (`max_retries = 3`) and a
persistent 429, exactly 4 attempts happen. -/
theorem rate_limit_exhaustion_witness :
    (fetchLoop pLib envAll429 "dQw4w9WgXcQ".data "en".data 0 throttlerInit).attempts
      = pLib.max_retries + 1 ∧
    (fetchLoop pLib envAll429 "dQw4w9WgXcQ".data "en".data 0 throttlerInit).resp =
      _format_error_response pLib "dQw4w9WgXcQ".data "en".data
        "Rate limited (429): cooldown in effect".data ∧
    (fetchLoop pLib envAll429 "dQw4w9WgXcQ".data "en".data 0 throttlerInit).resp.error
      = some "Rate limited (429): cooldown in effect".data ∧
    hasSub (pyLower "Rate limited (429): cooldown in effect".data)
      "rate limit".data = true :=
  rate_limit_exhaustion pLib envAll429 "dQw4w9WgXcQ".data "en".data throttlerInit
    (fun _ => ⟨exc429, rfl, by decide⟩)

/-! ## C8 — `NotFound` outcome: terminal empty-text envelope, cooldown
untouched -/

/-- C8.  On a cache-miss request whose first upstream outcome is
`NoTranscriptFound`, the loop performs one attempt, does not retry or sleep,
returns the envelope with empty `transcript_text`, error
"No transcript available" and null `is_auto_generated`, and leaves the
throttler's `cooldown_until` unchanged (the outcome is registered as a
success, not a rate-limit signal). -/
theorem not_found_terminal (p : FetchPolicy) (env : LoopEnv)
    (v l : List Char) (s : ThrottleState)
    (h0 : env.outcomes 0 = FetchOutcome.notFound) :
    (fetchLoop p env v l 0 s).attempts = 1 ∧
    (fetchLoop p env v l 0 s).delays = [] ∧
    (fetchLoop p env v l 0 s).resp.transcript_text = [] ∧
    (fetchLoop p env v l 0 s).resp.error = some "No transcript available".data ∧
    (fetchLoop p env v l 0 s).resp.is_auto_generated = none ∧
    (fetchLoop p env v l 0 s).throttle.cooldown_until = s.cooldown_until := by
  rw [fetchLoop.eq_def]
  simp [h0, _format_error_response, register_success, wait_for_slot]

/-- Witness for C8: a state with an active cooldown and a nonzero counter is
unchanged in its `cooldown_until` by the `NotFound` path. -/
theorem not_found_terminal_witness :
    (fetchLoop pLib envNF "dQw4w9WgXcQ".data "en".data 0 ⟨5, 77, 1⟩).attempts = 1 ∧
    (fetchLoop pLib envNF "dQw4w9WgXcQ".data "en".data 0 ⟨5, 77, 1⟩).delays = [] ∧
    (fetchLoop pLib envNF "dQw4w9WgXcQ".data "en".data 0 ⟨5, 77, 1⟩).resp.transcript_text = [] ∧
    (fetchLoop pLib envNF "dQw4w9WgXcQ".data "en".data 0 ⟨5, 77, 1⟩).resp.error
      = some "No transcript available".data ∧
    (fetchLoop pLib envNF "dQw4w9WgXcQ".data "en".data 0 ⟨5, 77, 1⟩).resp.is_auto_generated
      = none ∧
    (fetchLoop pLib envNF "dQw4w9WgXcQ".data "en".data 0 ⟨5, 77, 1⟩).throttle.cooldown_until
      = (⟨5, 77, 1⟩ : ThrottleState).cooldown_until :=
  not_found_terminal pLib envNF "dQw4w9WgXcQ".data "en".data ⟨5, 77, 1⟩ rfl

/-! ## C5 — cache put/get round trip with recomputed hash -/

section CacheClaims

variable {α β : Type}

/-- C5.  A `set_cache_entry` for any key and payload followed immediately by
`get_cache_entry` with the same key returns an entry whose `sha256` equals
the hash recomputed from the stored text (the writer's signature accepts no
caller hash at all), and whose text/segments/metadata (and auto-generated
flag) equal what was stored.  The `json` round trip is a property of the
injected encoder/decoder, hypothesised only at the stored values
(`json.dumps` never returns the empty string, and `json.loads` inverts it). -/
theorem cache_put_get (dumpSeg : α → List Char) (loadSeg : List Char → Option α)
    (dumpMeta : β → List Char) (loadMeta : List Char → Option β)
    (db : CacheDB) (video_id language kind text : List Char)
    (segments : Option α) (metadata : Option β) (is_auto : Option Bool)
    (fm : List Char) (now : ℚ)
    (hseg : ∀ sg, segments = some sg → dumpSeg sg ≠ [] ∧ loadSeg (dumpSeg sg) = some sg)
    (hmeta : ∀ m, metadata = some m → dumpMeta m ≠ [] ∧ loadMeta (dumpMeta m) = some m) :
    ∃ e : CacheEntry α β,
      get_cache_entry loadSeg loadMeta
        (set_cache_entry dumpSeg dumpMeta db video_id language kind text segments
          metadata is_auto fm now).1 video_id language kind = some e ∧
      e.transcript_text = text ∧
      e.segments = segments ∧
      e.metadata = metadata ∧
      e.is_auto_generated = is_auto ∧
      e.sha256 = compute_sha256 e.transcript_text := by
  unfold set_cache_entry get_cache_entry dbUpsert dbGet
  simp only [if_pos rfl]
  refine ⟨_, rfl, rfl, ?_, ?_, ?_, rfl⟩
  · cases hs : segments with
    | none => simp [pyJsonOpt]
    | some sg =>
      obtain ⟨hne, hld⟩ := hseg sg hs
      simp [pyJsonOpt, hne, hld]
  · cases hm : metadata with
    | none => simp [pyJsonOpt]
    | some m =>
      obtain ⟨hne, hld⟩ := hmeta m hm
      simp [pyJsonOpt, hne, hld]
  · cases is_auto with
    | none => rfl
    | some b => cases b <;> rfl

end CacheClaims

/-- Witness for C5 with a concrete injective encoder/decoder pair standing
in for the `json` module, and a concrete payload. -/
theorem cache_put_get_witness :
    ∃ e : CacheEntry (List Char) (List Char),
      get_cache_entry
        (fun l => match l with | 'J' :: t => some t | _ => none)
        (fun l => match l with | 'J' :: t => some t | _ => none)
        (set_cache_entry (fun l => 'J' :: l) (fun l => 'J' :: l) []
          "dQw4w9WgXcQ".data "en".data "text".data "hello world".data
          (some "segs".data) (some "meta".data) (some true)
          "YT_TRANSCRIPT_API".data 5).1
        "dQw4w9WgXcQ".data "en".data "text".data = some e ∧
      e.transcript_text = "hello world".data ∧
      e.segments = some "segs".data ∧
      e.metadata = some "meta".data ∧
      e.is_auto_generated = some true ∧
      e.sha256 = compute_sha256 e.transcript_text :=
  cache_put_get (fun l => 'J' :: l)
    (fun l => match l with | 'J' :: t => some t | _ => none)
    (fun l => 'J' :: l)
    (fun l => match l with | 'J' :: t => some t | _ => none)
    [] "dQw4w9WgXcQ".data "en".data "text".data "hello world".data
    (some "segs".data) (some "meta".data) (some true)
    "YT_TRANSCRIPT_API".data 5
    (fun sg h => by injection h with h'; subst h'; exact ⟨by simp, rfl⟩)
    (fun m h => by injection h with h'; subst h'; exact ⟨by simp, rfl⟩)

/-! ## C9 — shape of `search_videos` responses -/

/-- C9 (amended).  `search_videos` always returns a mapping with `query`,
`limit` (clamped to `[1, 10]`) and `items`; on a successful dict result from
the upstream search it additionally carries `sort_requested` and
`sort_effective`, with an unknown `sort` value falling back to
`"relevance"`; but the upstream-failure path (and the malformed-upstream
path) omits the two sort keys. -/
theorem search_videos_shape (query : List Char) (limit : Int) (sort : List Char)
    (upstream : List Char → SearchUpstream) :
    rGet (search_videos query limit sort upstream) "query".data
      = some (RVal.vStr query) ∧
    (rGet (search_videos query limit sort upstream) "limit".data
      = some (RVal.vInt (pyClamp limit)) ∧ 1 ≤ pyClamp limit ∧ pyClamp limit ≤ 10) ∧
    (∃ its, rGet (search_videos query limit sort upstream) "items".data
      = some (RVal.vItems its)) ∧
    (∀ eo, upstream (searchQueryFor (normSort sort) (pyClamp limit) query)
        = SearchUpstream.okDict eo →
      rGet (search_videos query limit sort upstream) "sort_requested".data
        = some (RVal.vStr (normSort sort)) ∧
      (rGet (search_videos query limit sort upstream) "sort_effective".data).isSome
        = true) ∧
    (pyLower (if sort = [] then "relevance".data else sort) ≠ "relevance".data →
     pyLower (if sort = [] then "relevance".data else sort) ≠ "views".data →
     pyLower (if sort = [] then "relevance".data else sort) ≠ "date".data →
     normSort sort = "relevance".data) := by
  have hclamp : 1 ≤ pyClamp limit ∧ pyClamp limit ≤ 10 := by
    unfold pyClamp
    omega
  have hfallback :
      pyLower (if sort = [] then "relevance".data else sort) ≠ "relevance".data →
      pyLower (if sort = [] then "relevance".data else sort) ≠ "views".data →
      pyLower (if sort = [] then "relevance".data else sort) ≠ "date".data →
      normSort sort = "relevance".data := by
    intro h1 h2 h3
    unfold normSort
    rw [if_neg]
    push_neg
    exact ⟨h1, h2, h3⟩
  unfold search_videos
  cases hup : upstream (searchQueryFor (normSort sort) (pyClamp limit) query) with
  | err msg =>
    refine ⟨by simp +decide [rGet, hup], ⟨by simp +decide [rGet, hup], hclamp⟩,
      ⟨[], ?_⟩, ?_, hfallback⟩
    · simp +decide [rGet, hup]
    · intro eo heo
      exact absurd heo (by simp)
  | notDict =>
    refine ⟨by simp +decide [rGet, hup], ⟨by simp +decide [rGet, hup], hclamp⟩,
      ⟨[], ?_⟩, ?_, hfallback⟩
    · simp +decide [rGet, hup]
    · intro eo heo
      exact absurd heo (by simp)
  | okDict entriesOpt =>
    refine ⟨by simp +decide [rGet, hup], ⟨by simp +decide [rGet, hup], hclamp⟩,
      ⟨buildItems (pyClamp limit).toNat (entriesOpt.getD []),
        by simp +decide [rGet, hup]⟩, ?_, hfallback⟩
    intro eo heo
    exact ⟨by simp +decide [rGet, hup], by simp +decide [rGet, hup]⟩

/-- C9 counterexample: on an upstream failure the returned mapping has no
`sort_requested` / `sort_effective` keys (it has `query`, `limit`, `items`,
`error` only), refuting the claim that every result carries all five
fields. -/
theorem search_videos_error_path_missing_sort_keys :
    rHasKey (search_videos "q".data 5 "relevance".data
      (fun _ => SearchUpstream.err "network down".data)) "sort_requested".data = false ∧
    rHasKey (search_videos "q".data 5 "relevance".data
      (fun _ => SearchUpstream.err "network down".data)) "sort_effective".data = false ∧
    rHasKey (search_videos "q".data 5 "relevance".data
      (fun _ => SearchUpstream.err "network down".data)) "error".data = true ∧
    rHasKey (search_videos "q".data 5 "relevance".data
      (fun _ => SearchUpstream.err "network down".data)) "limit".data = true := by
  decide

/-- Witness for C9: clamping from 25 down to 10, case-folded sort accepted,
unknown sort falling back. -/
theorem search_videos_shape_witness :
    rGet (search_videos "cats".data 25 "VIEWS".data
      (fun _ => SearchUpstream.okDict (some []))) "limit".data
      = some (RVal.vInt 10) ∧
    rGet (search_videos "cats".data 25 "VIEWS".data
      (fun _ => SearchUpstream.okDict (some []))) "sort_requested".data
      = some (RVal.vStr "views".data) ∧
    normSort "bogus".data = "relevance".data := by
  have h := search_videos_shape "cats".data 25 "VIEWS".data
    (fun _ => SearchUpstream.okDict (some []))
  have h' := search_videos_shape "cats".data 25 "bogus".data
    (fun _ => SearchUpstream.okDict (some []))
  refine ⟨?_, ?_, ?_⟩
  · have hl := h.2.1.1
    rw [show pyClamp 25 = 10 by decide] at hl
    exact hl
  · have hs := (h.2.2.2.1 (some []) rfl).1
    rw [show normSort "VIEWS".data = "views".data by decide] at hs
    exact hs
  · exact h'.2.2.2.2 (by decide) (by decide) (by decide)

/-! ## C1 — in-flight deduplication of concurrent identical requests -/

section DedupProofs

variable {R : Type} {outcome : ℕ → FetchRes R} {errEnv : List Char → R}

theorem noJoinAfterPop_no_joins {tr : List DLabel}
    (h : noJoinAfterPop true tr = true) : ∀ l ∈ tr, isJoinL l = false := by
  induction tr with
  | nil => simp
  | cons a t ih =>
    unfold noJoinAfterPop at h
    cases ha : isJoinL a with
    | true => rw [ha] at h; simp at h
    | false =>
      rw [ha] at h
      simp only [Bool.false_and, Bool.false_eq_true, if_false, Bool.true_or] at h
      intro l hl
      rcases List.mem_cons.mp hl with rfl | hl'
      · exact ha
      · exact ih h l hl'

theorem noJoinAfterPop_split {tr : List DLabel}
    (h : noJoinAfterPop false tr = true) :
    ∃ a b, tr = a ++ b ∧ (∀ l ∈ a, isPopL l = false) ∧
      (∀ l ∈ b, isJoinL l = false) := by
  induction tr with
  | nil => exact ⟨[], [], rfl, by simp, by simp⟩
  | cons x t ih =>
    unfold noJoinAfterPop at h
    simp only [Bool.and_false, Bool.false_eq_true, if_false, Bool.false_or] at h
    cases hx : isPopL x with
    | true =>
      rw [hx] at h
      have hx' : isJoinL x = false := by
        cases x <;> simp_all [isJoinL, isPopL]
      refine ⟨[], x :: t, rfl, by simp, ?_⟩
      intro l hl
      rcases List.mem_cons.mp hl with rfl | hl'
      · exact hx'
      · exact noJoinAfterPop_no_joins h l hl'
    | false =>
      rw [hx] at h
      obtain ⟨a, b, rfl, hpa, hjb⟩ := ih h
      refine ⟨x :: a, b, rfl, ?_, hjb⟩
      intro l hl
      rcases List.mem_cons.mp hl with rfl | hl'
      · exact hx
      · exact hpa l hl'

theorem dsteps_append_split {s s'' : DState R} {a b : List DLabel}
    (h : DSteps outcome errEnv s (a ++ b) s'') :
    ∃ m, DSteps outcome errEnv s a m ∧ DSteps outcome errEnv m b s'' := by
  induction a generalizing s with
  | nil => exact ⟨s, DSteps.nil, by simpa using h⟩
  | cons x t ih =>
    cases h with
    | cons hstep hrest =>
      obtain ⟨m, h1, h2⟩ := ih hrest
      exact ⟨m, DSteps.cons hstep h1, h2⟩

theorem step_from_start_is_join {s s' : DState R} {l : DLabel}
    (hthr : ∀ i, s.thr i = TSt.start)
    (hstep : DStep outcome errEnv s l s') : isJoinL l = true := by
  cases hstep with
  | joinO h1 h2 => rfl
  | joinW h1 h2 => rfl
  | fetch h1 => rw [hthr] at h1; cases h1
  | resolve h1 => rw [hthr] at h1; cases h1
  | pop h1 => rw [hthr] at h1; cases h1
  | await h1 h2 => rw [hthr] at h1; cases h1

theorem countP_cons_arith (fc : ℕ) (p : DLabel → Bool) (l : DLabel)
    (ls : List DLabel) :
    fc + (l :: ls).countP p = (fc + (if p l then 1 else 0)) + ls.countP p := by
  rw [List.countP_cons]
  cases hpl : p l <;> simp [hpl] <;> omega

theorem stepA_preserve {n fc jc : ℕ} {s s' : DState R} {l : DLabel}
    (hstep : DStep outcome errEnv s l s')
    (hnp : isPopL l = false) (hbound : l.thread < n)
    (hinv : InvA outcome errEnv n s fc jc) :
    InvA outcome errEnv n s'
      (fc + (if isFetchL l then 1 else 0))
      (jc + (if isJoinOL l then 1 else 0)) := by
  cases hstep with
  | @joinO i hthr hreg =>
    simp only [isFetchL, isJoinOL, if_false, if_true, Nat.add_zero]
    rcases hinv with ⟨hG, hR, hT, hF, rfl, rfl⟩ | ⟨hG, hR, _⟩
    · refine Or.inr ⟨by simp [hG], by simp [hG], rfl, i, hbound, ?_, ?_⟩
      · exact ⟨.needFetch, by simp [hG, Function.update_same], hF 0, rfl⟩
      · intro j hj
        dsimp only; rw [Function.update_noteq hj]
        exact Or.inl (hT j)
    · rw [hR] at hreg; cases hreg
  | @joinW i g hthr hreg =>
    simp only [isFetchL, isJoinOL, if_false, Nat.add_zero]
    rcases hinv with ⟨hG, hR, hT, hF, rfl, rfl⟩ | ⟨hG, hR, hjc, io, hion, ⟨ph, hio, hpo⟩, hothers⟩
    · rw [hR] at hreg; cases hreg
    · rw [hR] at hreg
      injection hreg with hg
      subst hg
      have hne : i ≠ io := by
        intro he
        rw [he, hio] at hthr
        cases hthr
      refine Or.inr ⟨hG, hR, hjc, io, hion,
        ⟨ph, by dsimp only; rw [Function.update_noteq (Ne.symm hne)]; exact hio, hpo⟩, ?_⟩
      intro j hj
      by_cases hji : j = i
      · subst hji
        dsimp only; rw [Function.update_same]
        exact Or.inr (Or.inl rfl)
      · dsimp only; rw [Function.update_noteq hji]
        exact hothers j hj
  | @fetch i g hthr =>
    simp only [isFetchL, isJoinOL, if_true, if_false, Nat.add_zero]
    rcases hinv with ⟨hG, hR, hT, hF, rfl, rfl⟩ | ⟨hG, hR, hjc, io, hion, ⟨ph, hio, hpo⟩, hothers⟩
    · rw [hT] at hthr; cases hthr
    · by_cases hiio : i = io
      · subst hiio
        rw [hthr] at hio
        injection hio with hg hph
        subst hg
        obtain ⟨hst, rfl⟩ := (by rw [← hph] at hpo; exact hpo :
          PhaseOk outcome errEnv i OwnerPhase.needFetch (s.futs 0) fc)
        refine Or.inr ⟨hG, hR, hjc, i, hion, ?_, ?_⟩
        · exact ⟨.needResolve (interpFetch errEnv (outcome i)),
            by dsimp only; rw [Function.update_same], rfl, hst, rfl⟩
        · intro j hj
          dsimp only; rw [Function.update_noteq hj]
          exact hothers j hj
      · rcases hothers i hiio with ht | ht | ⟨v, ht, -⟩ <;>
          (rw [hthr] at ht; cases ht)
  | @resolve i g v hthr =>
    simp only [isFetchL, isJoinOL, if_false, Nat.add_zero]
    rcases hinv with ⟨hG, hR, hT, hF, rfl, rfl⟩ | ⟨hG, hR, hjc, io, hion, ⟨ph, hio, hpo⟩, hothers⟩
    · rw [hT] at hthr; cases hthr
    · by_cases hiio : i = io
      · subst hiio
        rw [hthr] at hio
        injection hio with hg hph
        subst hg
        obtain ⟨hv, hst, hfc⟩ := (by rw [← hph] at hpo; exact hpo :
          PhaseOk outcome errEnv i (OwnerPhase.needResolve v) (s.futs 0) fc)
        refine Or.inr ⟨hG, hR, hjc, i, hion, ?_, ?_⟩
        · exact ⟨.needPop v, by dsimp only; rw [Function.update_same],
            hv, by dsimp only; rw [Function.update_same], hfc⟩
        · intro j hj
          rcases hothers j hj with ht | ht | ⟨v', ht, hstv⟩
          · dsimp only; rw [Function.update_noteq hj, Function.update_same]
            exact Or.inl ht
          · dsimp only; rw [Function.update_noteq hj, Function.update_same]
            exact Or.inr (Or.inl ht)
          · rw [hst] at hstv; cases hstv
      · rcases hothers i hiio with ht | ht | ⟨v', ht, -⟩ <;>
          (rw [hthr] at ht; cases ht)
  | pop hthr => cases hnp
  | @await i g v hthr hfut =>
    simp only [isFetchL, isJoinOL, if_false, Nat.add_zero]
    rcases hinv with ⟨hG, hR, hT, hF, rfl, rfl⟩ | ⟨hG, hR, hjc, io, hion, ⟨ph, hio, hpo⟩, hothers⟩
    · rw [hT] at hthr; cases hthr
    · have hiio : i ≠ io := by
        intro he
        rw [he, hio] at hthr
        cases hthr
      have hg0 : g = 0 := by
        rcases hothers i hiio with ht | ht | ⟨v', ht, -⟩ <;> rw [hthr] at ht
        · cases ht
        · injection ht
        · cases ht
      subst hg0
      refine Or.inr ⟨hG, hR, hjc, io, hion,
        ⟨ph, by dsimp only; rw [Function.update_noteq (Ne.symm hiio)]; exact hio, hpo⟩, ?_⟩
      intro j hj
      by_cases hji : j = i
      · subst hji
        dsimp only; rw [Function.update_same]
        exact Or.inr (Or.inr ⟨v, rfl, hfut⟩)
      · dsimp only; rw [Function.update_noteq hji]
        exact hothers j hj

theorem stepsA_preserve {n : ℕ} {s s' : DState R} {tr : List DLabel} {fc jc : ℕ}
    (hsteps : DSteps outcome errEnv s tr s')
    (hnp : ∀ l ∈ tr, isPopL l = false) (hb : ∀ l ∈ tr, l.thread < n)
    (hinv : InvA outcome errEnv n s fc jc) :
    InvA outcome errEnv n s' (fc + tr.countP isFetchL)
      (jc + tr.countP isJoinOL) := by
  induction tr generalizing s fc jc with
  | nil => cases hsteps; simpa using hinv
  | cons l ls ih =>
    cases hsteps with
    | cons hstep hrest =>
      rw [countP_cons_arith fc isFetchL l ls, countP_cons_arith jc isJoinOL l ls]
      exact ih hrest (fun x hx => hnp x (by simp [hx]))
        (fun x hx => hb x (by simp [hx]))
        (stepA_preserve hstep (hnp l (by simp)) (hb l (by simp)) hinv)

theorem stepB_preserve {n fc : ℕ} {s s' : DState R} {l : DLabel}
    (hstep : DStep outcome errEnv s l s')
    (hnj : isJoinL l = false)
    (hinv : InvB outcome errEnv n s fc) :
    InvB outcome errEnv n s' (fc + (if isFetchL l then 1 else 0)) := by
  obtain ⟨hG, io, hion, hcase, hothers⟩ := hinv
  cases hstep with
  | joinO hthr hreg => cases hnj
  | joinW hthr hreg => cases hnj
  | @fetch i g hthr =>
    simp only [isFetchL, if_true]
    rcases hcase with ⟨hR, ph, hio, hpo⟩ | ⟨hR, v, hio, -, -, -⟩
    · by_cases hiio : i = io
      · subst hiio
        rw [hthr] at hio
        injection hio with hg hph
        subst hg
        obtain ⟨hst, rfl⟩ := (by rw [← hph] at hpo; exact hpo :
          PhaseOk outcome errEnv i OwnerPhase.needFetch (s.futs 0) fc)
        refine ⟨hG, i, hion, Or.inl ⟨hR, .needResolve (interpFetch errEnv (outcome i)),
          by dsimp only; rw [Function.update_same], rfl, hst, rfl⟩, ?_⟩
        intro j hj
        dsimp only; rw [Function.update_noteq hj]
        exact hothers j hj
      · rcases hothers i hiio with ht | ht | ⟨v', ht, -⟩ <;>
          (rw [hthr] at ht; cases ht)
    · by_cases hiio : i = io
      · subst hiio; rw [hthr] at hio; cases hio
      · rcases hothers i hiio with ht | ht | ⟨v', ht, -⟩ <;>
          (rw [hthr] at ht; cases ht)
  | @resolve i g v hthr =>
    simp only [isFetchL, if_false, Nat.add_zero]
    rcases hcase with ⟨hR, ph, hio, hpo⟩ | ⟨hR, v', hio, -, -, -⟩
    · by_cases hiio : i = io
      · subst hiio
        rw [hthr] at hio
        injection hio with hg hph
        subst hg
        obtain ⟨hv, hst, hfc⟩ := (by rw [← hph] at hpo; exact hpo :
          PhaseOk outcome errEnv i (OwnerPhase.needResolve v) (s.futs 0) fc)
        refine ⟨hG, i, hion, Or.inl ⟨hR, .needPop v,
          by dsimp only; rw [Function.update_same], hv,
          by dsimp only; rw [Function.update_same], hfc⟩, ?_⟩
        intro j hj
        rcases hothers j hj with ht | ht | ⟨v'', ht, hstv⟩
        · dsimp only; rw [Function.update_noteq hj, Function.update_same]
          exact Or.inl ht
        · dsimp only; rw [Function.update_noteq hj, Function.update_same]
          exact Or.inr (Or.inl ht)
        · rw [hst] at hstv; cases hstv
      · rcases hothers i hiio with ht | ht | ⟨v'', ht, -⟩ <;>
          (rw [hthr] at ht; cases ht)
    · by_cases hiio : i = io
      · subst hiio; rw [hthr] at hio; cases hio
      · rcases hothers i hiio with ht | ht | ⟨v'', ht, -⟩ <;>
          (rw [hthr] at ht; cases ht)
  | @pop i g v hthr =>
    simp only [isFetchL, if_false, Nat.add_zero]
    rcases hcase with ⟨hR, ph, hio, hpo⟩ | ⟨hR, v', hio, -, -, -⟩
    · by_cases hiio : i = io
      · subst hiio
        rw [hthr] at hio
        injection hio with hg hph
        subst hg
        obtain ⟨hv, hst, hfc⟩ := (by rw [← hph] at hpo; exact hpo :
          PhaseOk outcome errEnv i (OwnerPhase.needPop v) (s.futs 0) fc)
        refine ⟨hG, i, hion, Or.inr ⟨rfl, v,
          by dsimp only; rw [Function.update_same], hv, hst, hfc⟩, ?_⟩
        intro j hj
        dsimp only; rw [Function.update_noteq hj]
        exact hothers j hj
      · rcases hothers i hiio with ht | ht | ⟨v'', ht, -⟩ <;>
          (rw [hthr] at ht; cases ht)
    · by_cases hiio : i = io
      · subst hiio; rw [hthr] at hio; cases hio
      · rcases hothers i hiio with ht | ht | ⟨v'', ht, -⟩ <;>
          (rw [hthr] at ht; cases ht)
  | @await i g v hthr hfut =>
    simp only [isFetchL, if_false, Nat.add_zero]
    have hiio : i ≠ io := by
      intro he
      rcases hcase with ⟨-, ph, hio, -⟩ | ⟨-, v', hio, -, -, -⟩ <;>
        (rw [he, hio] at hthr; cases hthr)
    have hg0 : g = 0 := by
      rcases hothers i hiio with ht | ht | ⟨v', ht, -⟩ <;> rw [hthr] at ht
      · cases ht
      · injection ht
      · cases ht
    subst hg0
    refine ⟨hG, io, hion, ?_, ?_⟩
    · rcases hcase with ⟨hR, ph, hio, hpo⟩ | ⟨hR, v', hio, hvv, hst, hfc⟩
      · exact Or.inl ⟨hR, ph,
          by dsimp only; rw [Function.update_noteq (Ne.symm hiio)]; exact hio, hpo⟩
      · exact Or.inr ⟨hR, v',
          by dsimp only; rw [Function.update_noteq (Ne.symm hiio)]; exact hio,
          hvv, hst, hfc⟩
    · intro j hj
      by_cases hji : j = i
      · subst hji
        dsimp only; rw [Function.update_same]
        exact Or.inr (Or.inr ⟨v, rfl, hfut⟩)
      · dsimp only; rw [Function.update_noteq hji]
        exact hothers j hj

theorem stepsB_preserve {n : ℕ} {s s' : DState R} {tr : List DLabel} {fc : ℕ}
    (hsteps : DSteps outcome errEnv s tr s')
    (hnj : ∀ l ∈ tr, isJoinL l = false)
    (hinv : InvB outcome errEnv n s fc) :
    InvB outcome errEnv n s' (fc + tr.countP isFetchL) := by
  induction tr generalizing s fc with
  | nil => cases hsteps; simpa using hinv
  | cons l ls ih =>
    cases hsteps with
    | cons hstep hrest =>
      rw [countP_cons_arith fc isFetchL l ls]
      exact ih hrest (fun x hx => hnj x (by simp [hx]))
        (stepB_preserve hstep (hnj l (by simp)) hinv)

end DedupProofs

/-- C1.  For requests with an identical dedup key issued concurrently while
no cache entry exists (formalized: a complete interleaved run from the
empty-registry state in which every registry join precedes every registry
removal), exactly one owner executes the fetch-with-policy routine (one
`fetch` event in the trace), every caller — owner and waiters alike —
finishes with the owner's single resolved value (which is the error envelope
`errEnv msg` when the owner's fetch raised, so error payloads are shared
byte-identically), and the in-flight key is removed from the registry at the
end on every exit path, the exception path included. -/
theorem inflight_dedup {R : Type} (outcome : ℕ → FetchRes R)
    (errEnv : List Char → R) (n : ℕ) (tr : List DLabel) (sF : DState R)
    (hn : 1 ≤ n)
    (hrun : DSteps outcome errEnv (dInit R) tr sF)
    (hbound : ∀ l ∈ tr, l.thread < n)
    (hdone : ∀ i < n, ∃ v, sF.thr i = TSt.finished v)
    (hconc : noJoinAfterPop false tr = true) :
    tr.countP isFetchL = 1 ∧
    (∃ io, io < n ∧ ∀ i < n,
      sF.thr i = TSt.finished (interpFetch errEnv (outcome io))) ∧
    sF.reg = none := by
  obtain ⟨a, b, rfl, hpa, hjb⟩ := noJoinAfterPop_split hconc
  obtain ⟨m, hA, hB⟩ := dsteps_append_split hrun
  have hinvA0 : InvA outcome errEnv n (dInit R) 0 0 :=
    Or.inl ⟨rfl, rfl, fun _ => rfl, fun _ => rfl, rfl, rfl⟩
  have hmid := stepsA_preserve hA hpa
    (fun l hl => hbound l (by simp [hl])) hinvA0
  rcases hmid with ⟨hG, hR, hT, hF, hfc, hjc⟩ |
    ⟨hG, hR, hjc, io, hion, ⟨ph, hio, hpo⟩, hothers⟩
  · cases hB with
    | nil =>
      obtain ⟨v, hv⟩ := hdone 0 hn
      rw [hT 0] at hv
      cases hv
    | cons hstep hrest =>
      rename_i s₁ l ls
      have hj := step_from_start_is_join hT hstep
      rw [hjb l (by simp)] at hj
      cases hj
  · have hinvB : InvB outcome errEnv n m (0 + a.countP isFetchL) :=
      ⟨hG, io, hion, Or.inl ⟨hR, ph, hio, hpo⟩, hothers⟩
    have hfin := stepsB_preserve hB hjb hinvB
    obtain ⟨-, io', hio'n, hcase, hothers'⟩ := hfin
    rcases hcase with ⟨hR', ph', hio', hpo'⟩ | ⟨hR', v, hio', hvv, hst, hfc⟩
    · obtain ⟨v, hv⟩ := hdone io' hio'n
      rw [hio'] at hv
      cases hv
    · refine ⟨?_, ⟨io', hio'n, ?_⟩, hR'⟩
      · rw [List.countP_append]
        omega
      · intro i hi
        by_cases hii : i = io'
        · subst hii
          rw [hio', hvv]
        · obtain ⟨vi, hvi⟩ := hdone i hi
          rcases hothers' i hii with ht | ht | ⟨v', ht, hstv⟩
          · rw [hvi] at ht; cases ht
          · rw [hvi] at ht; cases ht
          · rw [hst] at hstv
            injection hstv with hvv'
            rw [hvi] at ht
            injection ht with hv'
            rw [hvi, hv', ← hvv', hvv]

/-- Witness for C1: two concurrent requests; the owner's fetch raises, the
waiter receives the identical error envelope, the key ends up removed, and
exactly one fetch event occurred. -/
theorem inflight_dedup_witness :
    dedupTrace.countP isFetchL = 1 ∧
    (∃ io, io < 2 ∧ ∀ i < 2,
      dedupFinal.thr i = TSt.finished (interpFetch dedupErrEnv (dedupOutcome io))) ∧
    dedupFinal.reg = none := by
  have hrun : DSteps dedupOutcome dedupErrEnv (dInit (List Char))
      dedupTrace dedupFinal := by
    refine DSteps.cons (DStep.joinO rfl rfl) ?_
    refine DSteps.cons (DStep.joinW rfl rfl) ?_
    refine DSteps.cons (DStep.fetch rfl) ?_
    refine DSteps.cons (DStep.resolve rfl) ?_
    refine DSteps.cons (DStep.pop rfl) ?_
    refine DSteps.cons (DStep.await rfl rfl) ?_
    exact DSteps.nil
  exact inflight_dedup dedupOutcome dedupErrEnv 2 dedupTrace dedupFinal
    (by norm_num) hrun (by decide)
    (by intro i hi; interval_cases i <;> exact ⟨_, rfl⟩)
    (by decide)
